import Mathlib

/-!
Verification of the TinyFrame TypeScript reimplementation (tinyframe-js).

The development shallowly embeds `src/index.ts` (the `Message` class and the
`TinyFrame` engine).  JavaScript numbers are modelled as `Int`, with the
32-bit coercions performed by JavaScript's bitwise operators made explicit
(`toUint32`, `toInt32`, `jsShl`, `jsOr`).  Byte buffers (`Uint8Array`) are
modelled as `List Nat` whose entries are below 256.  Listener callbacks are
opaque: a callback object is identified by a `Nat` tag, and dispatch is
modelled by the ordered list of callback tags that would be invoked.

The checksum module `src/checksum.ts` is not part of the sources available
here (only its interface `{size, sum}` and the default `checksum.xor` are
referenced from `src/index.ts`), so checksum strategies are modelled from
the spec as a structure with a width and a pure summarizing function, and
the XOR strategy is modelled from the spec as well.
-/

namespace TinyFrameJS

/-! ### JavaScript 32-bit arithmetic -/

/-- JavaScript `x >>> 0`: interpret a number as an unsigned 32-bit integer. -/
def toUint32 (x : Int) : Nat := (x % (2 ^ 32 : Int)).toNat

/-- JavaScript `ToInt32`: interpret a number as a signed 32-bit integer.
Applied implicitly by the bitwise operators `<<`, `|`, `&`. -/
def toInt32 (x : Int) : Int :=
  if toUint32 x < 2 ^ 31 then (toUint32 x : Int) else (toUint32 x : Int) - 2 ^ 32

/-- JavaScript `a << k` for a nonnegative literal shift count:
`ToInt32(a)` shifted left by `k mod 32`, reinterpreted as `Int32`. -/
def jsShl (a : Int) (k : Nat) : Int := toInt32 (a * 2 ^ (k % 32))

/-- JavaScript `a | b`: bitwise or of the `ToUint32` images, reinterpreted
as `Int32`. -/
def jsOr (a b : Int) : Int := toInt32 ((toUint32 a) ||| (toUint32 b))

/-- The coercion applied by an assignment into a `Uint8Array` slot
(JavaScript `ToUint8`, i.e. the value modulo 256). -/
def toUint8 (x : Int) : Nat := toUint32 x % 256

/-! ### Big-endian byte serialization (`writeUIntBE` from `src/index.ts`)

The JS helper first truncates the value with `>>> 0` and then stores
`current & 0xFF` at the highest index, shifting `current` right by 8 bits
for each lower index.  Equivalently, the byte list is built by appending
the lowest byte of the running value and recursing on `value >>> 8`. -/

/-- Big-endian byte list of width `n` for an unsigned 32-bit value. -/
def beBytes : Nat → Nat → List Nat
  | _, 0 => []
  | u, n + 1 => beBytes (u / 256) n ++ [u % 256]

/-- `writeUIntBE(target, offset, value, byteLength)` from `src/index.ts`,
as the list of bytes stored at `offset`. -/
def writeUIntBE (value : Int) (n : Nat) : List Nat := beBytes (toUint32 value) n

/-- The unsigned big-endian value of a byte list (proof-side helper). -/
def beVal (bs : List Nat) : Nat := bs.foldl (fun a b => a * 256 + b) 0

/-! ### Checksum strategies

Modelled from the spec: `src/checksum.ts` is not among the available
sources; the spec (§2, §4.1) describes a checksum strategy as a pluggable
pure algorithm exposing a fixed output width `size` in bytes and a
deterministic `sum` over an arbitrary byte sequence, whose result is
representable in `size` bytes. -/

structure TinyFrameChecksum where
  size : Nat
  sum : List Nat → Nat

/-- Modelled from the spec: the XOR strategy (`checksum.xor`, the engine's
default), a one-byte checksum folding exclusive-or over the bytes. -/
def checksumXor : TinyFrameChecksum where
  size := 1
  sum bs := bs.foldl (fun a b => a ^^^ (b % 256)) 0

/-! ### Message (`class Message` in `src/index.ts`) -/

structure Message where
  frameID : Int
  type : Int
  data : List Nat
  isResponse : Bool
deriving DecidableEq, Repr

/-- `new Message(type, data)`: frame ID 0, not a response. -/
def Message.new (type : Int) (data : List Nat) : Message :=
  { frameID := 0, type := type, data := data, isResponse := false }

/-! ### Listener registry entries

Callback objects (`TinyFrameListener`) are compared by reference identity
in the code; they are modelled as opaque `Nat` tags. -/

structure IDListenerEntry where
  id : Int
  callback : Nat
  timeout : Option Int
  maxTimeout : Option Int
deriving DecidableEq, Repr

structure TypeListenerEntry where
  type : Int
  callback : Nat
deriving DecidableEq, Repr

/-- Parser states of the frame state machine. -/
inductive TFState where
  | sof | id | len | type | headcksum | data | datacksum
deriving DecidableEq, Repr

/-! ### The TinyFrame engine (`class TinyFrame` in `src/index.ts`)

`sofByte` and `parserTimeout` are `number | null` fields tested with
`Number.isFinite`; they are modelled as `Option Int` (finite number or
null).  The transport hooks `claimTx`/`releaseTx` default to no-ops and are
not part of the state; the `write` sink is modelled separately (see
`defaultWrite`). -/

structure TinyFrame where
  peer : Int
  nextID : Int
  state : TFState
  parserTimeoutTicks : Int
  parserTimeout : Option Int
  sofByte : Option Int
  chunkSize : Nat
  checksum : Option TinyFrameChecksum
  idSize : Nat
  lenSize : Nat
  typeSize : Nat
  partLen : Nat
  currentID : Int
  len : Int
  currentType : Int
  cksum : Nat
  data : List Nat
  idListeners : List IDListenerEntry
  typeListeners : List TypeListenerEntry
  genericListeners : List Nat

/-- `new TinyFrame(peer)`. -/
def TinyFrame.newWith (peer : Int) : TinyFrame where
  peer := peer
  nextID := 0
  state := .sof
  parserTimeoutTicks := 0
  parserTimeout := none
  sofByte := none
  chunkSize := 1024
  checksum := some checksumXor
  idSize := 4
  lenSize := 4
  typeSize := 4
  partLen := 0
  currentID := 0
  len := 0
  currentType := 0
  cksum := 0
  data := []
  idListeners := []
  typeListeners := []
  genericListeners := []

/-- `new TinyFrame()`: the `peer` parameter defaults to 1. -/
def TinyFrame.new : TinyFrame := TinyFrame.newWith 1

namespace TinyFrame

/-- `resetParser()`. -/
def resetParser (tf : TinyFrame) : TinyFrame :=
  { tf with state := .sof, partLen := 0 }

/-- `getNextID()`: returns `nextID` and post-increments it. -/
def getNextID (tf : TinyFrame) : Int × TinyFrame :=
  (tf.nextID, { tf with nextID := tf.nextID + 1 })

/-- `addIDListener(id, callback, timeout)`. -/
def addIDListener (tf : TinyFrame) (id : Int) (callback : Nat)
    (timeout : Option Int) : TinyFrame :=
  { tf with idListeners := tf.idListeners ++
      [{ id := id, callback := callback, timeout := timeout,
         maxTimeout := timeout }] }

/-- `renewIDListener(callback)`: restore the countdown of every entry whose
callback is the given reference to its `maxTimeout`. -/
def renewIDListener (tf : TinyFrame) (callback : Nat) : TinyFrame :=
  { tf with idListeners := tf.idListeners.map fun l =>
      if l.callback = callback then { l with timeout := l.maxTimeout } else l }

/-- `addTypeListener(type, callback)`. -/
def addTypeListener (tf : TinyFrame) (type : Int) (callback : Nat) : TinyFrame :=
  { tf with typeListeners := tf.typeListeners ++
      [{ type := type, callback := callback }] }

/-- `addGenericListener(callback)`. -/
def addGenericListener (tf : TinyFrame) (callback : Nat) : TinyFrame :=
  { tf with genericListeners := tf.genericListeners ++ [callback] }

/-- `removeIDListener(callback)`: `findIndex` + `splice(index, 1)`, i.e.
remove the first entry whose callback is the given reference. -/
def removeIDListener (tf : TinyFrame) (callback : Nat) : TinyFrame :=
  match tf.idListeners.findIdx? (fun l => l.callback = callback) with
  | some i => { tf with idListeners := tf.idListeners.eraseIdx i }
  | none => tf

/-- `removeTypeListener(callback)`. -/
def removeTypeListener (tf : TinyFrame) (callback : Nat) : TinyFrame :=
  match tf.typeListeners.findIdx? (fun l => l.callback = callback) with
  | some i => { tf with typeListeners := tf.typeListeners.eraseIdx i }
  | none => tf

/-- `composeHead(message)`: allocate or reuse the frame ID, stamp the peer
bit when `peer === 1`, write the stamped value back into
`message.frameID`, and emit `[SOF?] ++ ID ++ LEN ++ TYPE ++ [HEADCKSUM?]`.
The header checksum is computed over `buffer.subarray(0, headerEnd)`,
i.e. over every byte emitted so far including the SOF byte when present.
Returns the updated engine, the updated message and the header bytes. -/
def composeHead (tf : TinyFrame) (m : Message) : TinyFrame × Message × List Nat :=
  let (id0, tf₁) := if m.isResponse then (m.frameID, tf) else tf.getNextID
  let id := if tf.peer = 1 then jsOr id0 (jsShl 1 (tf.idSize * 8 - 1)) else id0
  let m' := { m with frameID := id }
  let sofPart : List Nat :=
    match tf.sofByte with
    | some s => [toUint8 s]
    | none => []
  let header0 := sofPart ++ writeUIntBE id tf.idSize
      ++ writeUIntBE (m.data.length : Int) tf.lenSize
      ++ writeUIntBE m.type tf.typeSize
  let ckPart : List Nat :=
    match tf.checksum with
    | some c => writeUIntBE (c.sum header0 : Int) c.size
    | none => []
  (tf₁, m', header0 ++ ckPart)

end TinyFrame

/-- The chunking loop of `sendFrame`: `write` is handed
`buffer.subarray(cursor, cursor + chunkSize)` while `cursor < length`.
The JS loop does not terminate when `chunkSize = 0` (the cursor never
advances); that case is modelled as producing no chunks, and every claim
about sending assumes a positive chunk size (the constructor default is
1024). -/
def chunkifyFuel (csize : Nat) : Nat → List Nat → List (List Nat)
  | _, [] => []
  | 0, _ :: _ => []
  | fuel + 1, b :: rest =>
      if csize = 0 then []
      else (b :: rest).take csize :: chunkifyFuel csize fuel ((b :: rest).drop csize)

def chunkify (csize : Nat) (buf : List Nat) : List (List Nat) :=
  chunkifyFuel csize buf.length buf

namespace TinyFrame

/-- `sendFrame(message, callback?, timeout)`: compose the header, register
the optional one-shot listener against the stamped frame ID, append the
payload and (when a checksum strategy is active and the payload is
nonempty) the payload checksum, and chunk the buffer for the write sink.
The `claimTx`/`releaseTx` hooks default to no-ops.  Returns the updated
engine, the updated message and the chunks handed to `write`, in order. -/
def sendFrame (tf : TinyFrame) (m : Message)
    (callback : Option (Nat × Option Int)) : TinyFrame × Message × List (List Nat) :=
  let (tf₁, m', head) := tf.composeHead m
  let tf₂ :=
    match callback with
    | some (cb, timeout) => tf₁.addIDListener m'.frameID cb timeout
    | none => tf₁
  let body :=
    match tf.checksum with
    | some c =>
        if m'.data.length ≠ 0 then m'.data ++ writeUIntBE (c.sum m'.data : Int) c.size
        else m'.data
    | none => m'.data
  (tf₂, m', chunkify tf.chunkSize (head ++ body))

/-- `send(message)`. -/
def send (tf : TinyFrame) (m : Message) : TinyFrame × Message × List (List Nat) :=
  tf.sendFrame m none

/-- `query(message, listener, timeout)`. -/
def query (tf : TinyFrame) (m : Message) (cb : Nat) (timeout : Option Int) :
    TinyFrame × Message × List (List Nat) :=
  tf.sendFrame m (some (cb, timeout))

/-- `respond(message)`: set `isResponse = true`, send, then set
`isResponse = false`. -/
def respond (tf : TinyFrame) (m : Message) : TinyFrame × Message × List (List Nat) :=
  let m₁ := { m with isResponse := true }
  let (tf₁, m₂, chunks) := tf.send m₁
  (tf₁, { m₂ with isResponse := false }, chunks)

/-- The ordered callback tags invoked by `handleReceived()`: iterate the
snapshot of the ID listeners invoking every entry whose `id` equals the
message's `frameID`, then the type listeners matching the message's
`type`, then every generic listener. -/
def dispatchCalls (tf : TinyFrame) (msg : Message) : List Nat :=
  (tf.idListeners.foldl
      (fun acc l => if l.id = msg.frameID then acc ++ [l.callback] else acc) [])
    ++ (tf.typeListeners.foldl
      (fun acc l => if l.type = msg.type then acc ++ [l.callback] else acc) [])
    ++ tf.genericListeners

/-- `handleReceived()`: build the received `Message` from the parser fields
and fan it out.  Returns the message and the ordered callback tags. -/
def handleReceived (tf : TinyFrame) : Message × List Nat :=
  let msg : Message :=
    { frameID := tf.currentID, type := tf.currentType, data := tf.data,
      isResponse := false }
  (msg, tf.dispatchCalls msg)

/-- `beginFrame()`. -/
def beginFrame (tf : TinyFrame) : TinyFrame :=
  { tf with state := .id, partLen := 0, currentID := 0, len := 0,
            currentType := 0, cksum := 0, data := [] }

/-- `this.checksum?.size ?? 0`. -/
def cksize (tf : TinyFrame) : Nat :=
  match tf.checksum with
  | some c => c.size
  | none => 0

/-- `acceptByte(byte)`: one step of the parser state machine.  Returns the
new engine state together with the message dispatched by this byte, if
any.  The incoming byte is a `Uint8Array` entry, hence a value below
256. -/
def acceptByte (tf0 : TinyFrame) (byte : Nat) : TinyFrame × Option Message :=
  -- parse-stall check: a finite `parserTimeout` exceeded by
  -- `parserTimeoutTicks` forcibly resets the parser
  let tf1 :=
    match tf0.parserTimeout with
    | some t => if t < tf0.parserTimeoutTicks then tf0.resetParser else tf0
    | none => tf0
  -- with no SOF byte configured, a byte arriving in the `sof` state
  -- immediately begins a frame
  let tf :=
    if tf1.state = TFState.sof ∧ tf1.sofByte = none then tf1.beginFrame else tf1
  match tf.state with
  | .sof =>
      match tf.sofByte with
      | some s =>
          if (byte : Int) = s then
            let tf₂ := tf.beginFrame
            ({ tf₂ with data := tf₂.data ++ [byte] }, none)
          else (tf, none)
      | none => (tf, none)
  | .id =>
      let tf₂ := { tf with data := tf.data ++ [byte],
                           currentID := jsOr (jsShl tf.currentID 8) (byte : Int) }
      if tf.partLen + 1 = tf.idSize then
        ({ tf₂ with state := .len, partLen := 0 }, none)
      else ({ tf₂ with partLen := tf.partLen + 1 }, none)
  | .len =>
      let tf₂ := { tf with data := tf.data ++ [byte],
                           len := jsOr (jsShl tf.len 8) (byte : Int) }
      if tf.partLen + 1 = tf.lenSize then
        ({ tf₂ with state := .type, partLen := 0 }, none)
      else ({ tf₂ with partLen := tf.partLen + 1 }, none)
  | .type =>
      let tf₂ := { tf with data := tf.data ++ [byte],
                           currentType := jsOr (jsShl tf.currentType 8) (byte : Int) }
      if tf.partLen + 1 = tf.typeSize then
        ({ tf₂ with state := if tf.checksum.isSome then .headcksum else .data,
                    partLen := 0 }, none)
      else ({ tf₂ with partLen := tf.partLen + 1 }, none)
  | .headcksum =>
      let ck := toUint32 (jsOr (jsShl (tf.cksum : Int) 8) (byte : Int))
      if tf.partLen + 1 = tf.cksize then
        match tf.checksum with
        | some c =>
            if c.sum tf.data = ck then
              -- the final checksum byte is pushed into the buffer
              let d := tf.data ++ [byte]
              if tf.len = 0 then
                let (msg, _) := handleReceived
                  { tf with cksum := ck, partLen := tf.partLen + 1, data := d }
                ({ tf with cksum := ck, data := d, state := .sof, partLen := 0 },
                 some msg)
              else
                ({ tf with cksum := ck, data := [], state := .data, partLen := 0 },
                 none)
            else ({ tf with cksum := ck, state := .sof, partLen := 0 }, none)
        | none => ({ tf with cksum := ck, state := .sof, partLen := 0 }, none)
      else ({ tf with cksum := ck, partLen := tf.partLen + 1 }, none)
  | .data =>
      let d := tf.data ++ [byte]
      if ((tf.partLen + 1 : Nat) : Int) = tf.len then
        match tf.checksum with
        | none =>
            let (msg, _) := handleReceived
              { tf with data := d, partLen := tf.partLen + 1 }
            ({ tf with data := d, state := .sof, partLen := 0 }, some msg)
        | some _ =>
            ({ tf with data := d, state := .datacksum, partLen := 0, cksum := 0 },
             none)
      else ({ tf with data := d, partLen := tf.partLen + 1 }, none)
  | .datacksum =>
      let ck := toUint32 (jsOr (jsShl (tf.cksum : Int) 8) (byte : Int))
      if tf.partLen + 1 = tf.cksize then
        match tf.checksum with
        | some c =>
            if c.sum tf.data = ck then
              let (msg, _) := handleReceived
                { tf with cksum := ck, partLen := tf.partLen + 1 }
              ({ tf with cksum := ck, state := .sof, partLen := 0 }, some msg)
            else ({ tf with cksum := ck, state := .sof, partLen := 0 }, none)
        | none => ({ tf with cksum := ck, state := .sof, partLen := 0 }, none)
      else ({ tf with cksum := ck, partLen := tf.partLen + 1 }, none)

/-- `accept(buffer)`: feed a buffer one byte at a time, collecting the
dispatched messages in order. -/
def acceptList (tf : TinyFrame) : List Nat → TinyFrame × List Message
  | [] => (tf, [])
  | b :: bs =>
      let (tf₁, m?) := tf.acceptByte b
      let (tf₂, ms) := tf₁.acceptList bs
      (tf₂, m?.toList ++ ms)

/-- Feeding a sequence of chunks to `accept`, chunk after chunk. -/
def acceptChunks (tf : TinyFrame) : List (List Nat) → TinyFrame × List Message
  | [] => (tf, [])
  | c :: cs =>
      let (tf₁, ms₁) := tf.acceptList c
      let (tf₂, ms₂) := tf₁.acceptChunks cs
      (tf₂, ms₁ ++ ms₂)

/-- `tick()`: advance `parserTimeoutTicks` and decrement every ID-listener
countdown, removing (via the collected indices and `splice`) the entries
whose countdown reached zero or below. -/
def tick (tf : TinyFrame) : TinyFrame :=
  { tf with
    parserTimeoutTicks := tf.parserTimeoutTicks + 1,
    idListeners :=
      (tf.idListeners.map fun l =>
        match l.timeout with
        | some t => { l with timeout := some (t - 1) }
        | none => l).filter fun l =>
          match l.timeout with
          | some t => 0 < t
          | none => true }

end TinyFrame

/-- The constructor's default `write` sink: it throws
`new Error('No write implementation')` on any call. -/
def defaultWrite : List Nat → Except String Unit :=
  fun _ => Except.error "No write implementation"

/-- Hand the chunks of a send to a write sink in order, propagating the
first thrown error (the chunk loop of `sendFrame`). -/
def runSink (sink : List Nat → Except String Unit) :
    List (List Nat) → Except String Unit
  | [] => Except.ok ()
  | c :: cs =>
      match sink c with
      | Except.ok _ => runSink sink cs
      | Except.error e => Except.error e

/-- The pre-stamp frame ID chosen by `composeHead`: the message's own
`frameID` for a response, the engine's `nextID` counter otherwise. -/
def preID (tf : TinyFrame) (m : Message) : Int :=
  if m.isResponse then m.frameID else tf.nextID

/-- The parser's big-endian field accumulator: fold
`(acc << 8) | byte` over the incoming bytes. -/
def recvAcc (a : Int) (bs : List Nat) : Int :=
  bs.foldl (fun x (b : Nat) => jsOr (jsShl x 8) (b : Int)) a

/-- The parser's checksum accumulator: fold `((ck << 8) | byte) >>> 0`
over the incoming bytes. -/
def ckAcc (c : Nat) (bs : List Nat) : Nat :=
  bs.foldl (fun ck (b : Nat) => toUint32 (jsOr (jsShl (ck : Int) 8) (b : Int))) c

/-- The stamped frame ID written into `message.frameID` by `composeHead`:
the pre-stamp ID, with the peer bit `1 << (idSize*8 - 1)` or-ed in when
`peer === 1`. -/
def stampID (tf : TinyFrame) (m : Message) : Int :=
  if tf.peer = 1 then jsOr (preID tf m) (jsShl 1 (tf.idSize * 8 - 1))
  else preID tf m

/-- The checksum window of the header: every header byte emitted before
the checksum field — the SOF byte (when configured) followed by the ID,
LEN and TYPE fields. -/
def headerCore (tf : TinyFrame) (m : Message) : List Nat :=
  (match tf.sofByte with
   | some s => [toUint8 s]
   | none => []) ++
  writeUIntBE (stampID tf m) tf.idSize ++
  writeUIntBE (m.data.length : Int) tf.lenSize ++
  writeUIntBE m.type tf.typeSize

/-- The full header emitted by `composeHead`: the checksum window followed
by the header checksum (when a strategy is active). -/
def headerBytes (tf : TinyFrame) (m : Message) : List Nat :=
  headerCore tf m ++
  (match tf.checksum with
   | some c => writeUIntBE ((c.sum (headerCore tf m)) : Int) c.size
   | none => [])

/-- The body emitted by `sendFrame`: the payload, followed by the payload
checksum when a strategy is active and the payload is nonempty. -/
def bodyBytes (tf : TinyFrame) (m : Message) : List Nat :=
  match tf.checksum with
  | some c =>
      if m.data.length ≠ 0 then m.data ++ writeUIntBE ((c.sum m.data) : Int) c.size
      else m.data
  | none => m.data

/-- One ID allocation on an engine (`getNextID`'s state change). -/
def allocStep (tf : TinyFrame) : TinyFrame := (tf.getNextID).2

/-! ### Concrete fixtures for counterexamples and witnesses -/

/-- A master-role engine with one-byte fields and the default XOR
checksum. -/
def tfTiny : TinyFrame :=
  { TinyFrame.newWith 0 with idSize := 1, lenSize := 1, typeSize := 1 }

/-- The same tiny engine with the checksum strategy disabled. -/
def tfTinyNoCk : TinyFrame := { tfTiny with checksum := none }

/-- A tiny engine with a finite parse timeout of 2 ticks and a two-byte
ID field. -/
def tfTimeout : TinyFrame :=
  { TinyFrame.newWith 0 with
    idSize := 2
    lenSize := 1
    typeSize := 1
    checksum := none
    parserTimeout := some 2 }

/-- A slave-role engine with one-byte fields, a SOF byte and chunk size
2, used to witness the round-trip. -/
def tfWit : TinyFrame :=
  { TinyFrame.newWith 1 with
    idSize := 1
    lenSize := 1
    typeSize := 1
    sofByte := some 1
    chunkSize := 2 }

/-- The tiny engine with a SOF byte configured. -/
def tfSof : TinyFrame := { tfTiny with sofByte := some 1 }

/-! ### Arithmetic lemmas about the JavaScript 32-bit model -/

theorem toUint32_lt (x : Int) : toUint32 x < 2 ^ 32 := by
  unfold toUint32
  have h1 : 0 ≤ x % (2 ^ 32 : Int) := Int.emod_nonneg x (by norm_num)
  have h2 : x % (2 ^ 32 : Int) < 2 ^ 32 := Int.emod_lt_of_pos x (by norm_num)
  omega

theorem toUint32_natCast (u : Nat) : toUint32 (u : Int) = u % 2 ^ 32 := by
  unfold toUint32; omega

theorem toUint32_natCast_of_lt {u : Nat} (h : u < 2 ^ 32) :
    toUint32 (u : Int) = u := by
  rw [toUint32_natCast, Nat.mod_eq_of_lt h]

theorem toUint32_eq_of_emod {x y : Int} (h : x % 2 ^ 32 = y % 2 ^ 32) :
    toUint32 x = toUint32 y := by
  unfold toUint32; rw [h]

theorem toInt32_eq_of_emod {x y : Int} (h : x % 2 ^ 32 = y % 2 ^ 32) :
    toInt32 x = toInt32 y := by
  unfold toInt32
  rw [toUint32_eq_of_emod h]

theorem toInt32_emod (x : Int) : (toInt32 x) % 2 ^ 32 = x % 2 ^ 32 := by
  unfold toInt32 toUint32
  have h1 : 0 ≤ x % (2 ^ 32 : Int) := Int.emod_nonneg x (by norm_num)
  have h2 : x % (2 ^ 32 : Int) < 2 ^ 32 := Int.emod_lt_of_pos x (by norm_num)
  split <;> omega

theorem toUint32_toInt32 (x : Int) : toUint32 (toInt32 x) = toUint32 x :=
  toUint32_eq_of_emod (toInt32_emod x)

theorem toInt32_idem (x : Int) : toInt32 (toInt32 x) = toInt32 x :=
  toInt32_eq_of_emod (toInt32_emod x)

theorem toInt32_natCast_toUint32 (x : Int) :
    toInt32 ((toUint32 x : Nat) : Int) = toInt32 x := by
  apply toInt32_eq_of_emod
  unfold toUint32
  have h1 : 0 ≤ x % (2 ^ 32 : Int) := Int.emod_nonneg x (by norm_num)
  have h2 : x % (2 ^ 32 : Int) < 2 ^ 32 := Int.emod_lt_of_pos x (by norm_num)
  omega

theorem toInt32_natCast_congr {m n : Nat} (h : m % 2 ^ 32 = n % 2 ^ 32) :
    toInt32 (m : Int) = toInt32 (n : Int) := by
  apply toInt32_eq_of_emod
  omega

theorem toInt32_natCast_of_lt {u : Nat} (h : u < 2 ^ 31) :
    toInt32 (u : Int) = (u : Int) := by
  unfold toInt32
  rw [toUint32_natCast_of_lt (by omega)]
  split <;> omega

theorem toInt32_of_nonneg_lt {x : Int} (h0 : 0 ≤ x) (h : x < 2 ^ 31) :
    toInt32 x = x := by
  unfold toInt32 toUint32
  have h2 : x % (2 ^ 32 : Int) = x := Int.emod_eq_of_lt h0 (by omega)
  rw [h2]
  split <;> omega

theorem toUint32_of_nonneg_lt {x : Int} (h0 : 0 ≤ x) (h : x < 2 ^ 32) :
    (toUint32 x : Int) = x := by
  unfold toUint32
  rw [Int.emod_eq_of_lt h0 (by omega)]
  omega

/-- One parser accumulation step, in terms of the unsigned image of the
accumulator: `(a << 8) | b` is `ToInt32(ToUint32(a)·256 + b)`. -/
theorem recvStep_eq (a : Int) (b : Nat) (hb : b < 256) :
    jsOr (jsShl a 8) (b : Int) = toInt32 (((toUint32 a * 256 + b : Nat) : Int)) := by
  unfold jsOr jsShl
  rw [toUint32_toInt32]
  have hmul : toUint32 (a * 2 ^ (8 % 32)) = toUint32 a * 256 % 2 ^ 32 := by
    have : (8 : Nat) % 32 = 8 := by norm_num
    rw [this]
    have hcong : (a * 2 ^ 8) % 2 ^ 32 = (((toUint32 a * 256 : Nat) : Int)) % 2 ^ 32 := by
      have ha : a % 2 ^ 32 = ((toUint32 a : Nat) : Int) % 2 ^ 32 := by
        unfold toUint32
        have h1 : 0 ≤ a % (2 ^ 32 : Int) := Int.emod_nonneg a (by norm_num)
        omega
      calc (a * 2 ^ 8) % 2 ^ 32
          = (a % 2 ^ 32 * (2 ^ 8 % 2 ^ 32)) % 2 ^ 32 := by rw [Int.mul_emod]
        _ = (((toUint32 a : Nat) : Int) % 2 ^ 32 * (2 ^ 8 % 2 ^ 32)) % 2 ^ 32 := by rw [ha]
        _ = (((toUint32 a : Nat) : Int) * 2 ^ 8) % 2 ^ 32 := by rw [← Int.mul_emod]
        _ = (((toUint32 a * 256 : Nat) : Int)) % 2 ^ 32 := by push_cast; ring_nf
    rw [toUint32_eq_of_emod hcong, toUint32_natCast]
  rw [hmul]
  have hb32 : toUint32 (b : Int) = b := toUint32_natCast_of_lt (by omega)
  rw [hb32]
  -- `ToUint32(a)·256 mod 2^32` has its low 8 bits clear, so `or` is `add`
  have hsplit : toUint32 a * 256 % 2 ^ 32 = 2 ^ 8 * (toUint32 a % 2 ^ 24) := by
    have : toUint32 a * 256 % 2 ^ 32 = toUint32 a % 2 ^ 24 * 256 := by
      have h1 : (2 : Nat) ^ 32 = 2 ^ 24 * 256 := by norm_num
      rw [h1, Nat.mul_mod_mul_right]
    omega
  rw [hsplit]
  have hor : 2 ^ 8 * (toUint32 a % 2 ^ 24) + b
      = 2 ^ 8 * (toUint32 a % 2 ^ 24) ||| b :=
    Nat.mul_add_lt_is_or (by omega) _
  rw [← hor]
  apply toInt32_natCast_congr
  have hmod : toUint32 a % 2 ^ 24 * 256 % 2 ^ 32 = toUint32 a * 256 % 2 ^ 32 := by
    have h1 : (2 : Nat) ^ 32 = 2 ^ 24 * 256 := by norm_num
    rw [h1, Nat.mul_mod_mul_right, Nat.mul_mod_mul_right]
    omega
  omega

/-! ### Big-endian serialization lemmas -/

theorem beBytes_length (u n : Nat) : (beBytes u n).length = n := by
  induction n generalizing u with
  | zero => rfl
  | succ n ih => simp [beBytes, ih]

theorem beBytes_lt (u n : Nat) : ∀ b ∈ beBytes u n, b < 256 := by
  induction n generalizing u with
  | zero => simp [beBytes]
  | succ n ih =>
      intro b hb
      simp only [beBytes, List.mem_append, List.mem_singleton] at hb
      rcases hb with hb | hb
      · exact ih _ _ hb
      · omega

theorem beVal_append_singleton (xs : List Nat) (b : Nat) :
    beVal (xs ++ [b]) = beVal xs * 256 + b := by
  unfold beVal
  rw [List.foldl_append]
  rfl

theorem beVal_beBytes (u n : Nat) : beVal (beBytes u n) = u % 2 ^ (8 * n) := by
  induction n generalizing u with
  | zero => simp [beBytes, beVal, Nat.mod_one]
  | succ n ih =>
      rw [beBytes, beVal_append_singleton, ih]
      have h1 : (2 : Nat) ^ (8 * (n + 1)) = 256 * 2 ^ (8 * n) := by
        rw [Nat.mul_add, Nat.pow_add]
        ring
      rw [h1, Nat.mod_mul]
      ring

/-- Folding the plain big-endian accumulator is stable modulo `2^32`. -/
theorem foldl_be_congr (bs : List Nat) :
    ∀ x y : Nat, x % 2 ^ 32 = y % 2 ^ 32 →
      (bs.foldl (fun a b => a * 256 + b) x) % 2 ^ 32
        = (bs.foldl (fun a b => a * 256 + b) y) % 2 ^ 32 := by
  induction bs with
  | nil => intro x y h; simpa using h
  | cons b bs ih =>
      intro x y h
      simp only [List.foldl_cons]
      exact ih _ _ (by omega)

theorem recvAcc_eq (bs : List Nat) :
    ∀ a : Int, (∀ b ∈ bs, b < 256) → toInt32 a = a →
      recvAcc a bs
        = toInt32 (((bs.foldl (fun x b => x * 256 + b) (toUint32 a) : Nat) : Int)) := by
  induction bs with
  | nil =>
      intro a _ ha
      simp only [recvAcc, List.foldl_nil]
      rw [toInt32_natCast_toUint32, ha]
  | cons b bs ih =>
      intro a hb ha
      have hb0 : b < 256 := hb b (by simp)
      have hstep : jsOr (jsShl a 8) (b : Int)
          = toInt32 (((toUint32 a * 256 + b : Nat) : Int)) := recvStep_eq a b hb0
      simp only [recvAcc, List.foldl_cons]
      rw [show (List.foldl (fun x (b : Nat) => jsOr (jsShl x 8) (b : Int))
            (jsOr (jsShl a 8) (b : Int)) bs) = recvAcc (jsOr (jsShl a 8) (b : Int)) bs from rfl]
      rw [hstep]
      rw [ih _ (fun x hx => hb x (by simp [hx])) (toInt32_idem _)]
      apply toInt32_natCast_congr
      apply foldl_be_congr
      rw [toUint32_toInt32, toUint32_natCast]
      omega

theorem ckAcc_eq (bs : List Nat) :
    ∀ c : Nat, c < 2 ^ 32 → (∀ b ∈ bs, b < 256) →
      ckAcc c bs = (bs.foldl (fun a b => a * 256 + b) c) % 2 ^ 32 := by
  induction bs with
  | nil =>
      intro c hc _
      simp only [ckAcc, List.foldl_nil]
      omega
  | cons b bs ih =>
      intro c hc hb
      have hb0 : b < 256 := hb b (by simp)
      simp only [ckAcc, List.foldl_cons]
      rw [show (List.foldl (fun ck (b : Nat) => toUint32 (jsOr (jsShl (ck : Int) 8) (b : Int)))
            (toUint32 (jsOr (jsShl (c : Int) 8) (b : Int))) bs)
          = ckAcc (toUint32 (jsOr (jsShl (c : Int) 8) (b : Int))) bs from rfl]
      have hstep : toUint32 (jsOr (jsShl (c : Int) 8) (b : Int))
          = (c * 256 + b) % 2 ^ 32 := by
        rw [recvStep_eq _ _ hb0, toUint32_toInt32, toUint32_natCast,
            toUint32_natCast_of_lt hc]
      rw [hstep]
      rw [ih _ (Nat.mod_lt _ (by norm_num)) (fun x hx => hb x (by simp [hx]))]
      apply foldl_be_congr
      omega

/-- The checksum bytes of a value representable in `size ≤ 4` bytes
re-accumulate to that value. -/
theorem ckAcc_beBytes {s : Nat} (size : Nat) (hsz : size ≤ 4)
    (hs : s < 2 ^ (8 * size)) :
    ckAcc 0 (beBytes s size) = s := by
  have hlt : s < 2 ^ 32 := by
    have : (2 : Nat) ^ (8 * size) ≤ 2 ^ 32 := Nat.pow_le_pow_right (by norm_num) (by omega)
    omega
  rw [ckAcc_eq _ _ (by norm_num) (beBytes_lt s size)]
  have : (beBytes s size).foldl (fun a b => a * 256 + b) 0 = beVal (beBytes s size) := rfl
  rw [this, beVal_beBytes, Nat.mod_eq_of_lt hs, Nat.mod_eq_of_lt hlt]

/-- The parser's field accumulator recovers a value `v` whose unsigned
image fits the field width (`n ≤ 4` bytes) and which is itself a signed
32-bit value. -/
theorem recvAcc_writeUIntBE (v : Int) (n : Nat)
    (hfit : toUint32 v < 2 ^ (8 * n)) (hv : toInt32 v = v) :
    recvAcc 0 (writeUIntBE v n) = v := by
  unfold writeUIntBE
  rw [recvAcc_eq _ _ (beBytes_lt _ _) (by unfold toInt32 toUint32; norm_num)]
  have h0 : toUint32 (0 : Int) = 0 := by unfold toUint32; norm_num
  rw [h0]
  have hfold : (beBytes (toUint32 v) n).foldl (fun a b => a * 256 + b) 0
      = beVal (beBytes (toUint32 v) n) := rfl
  rw [hfold, beVal_beBytes, Nat.mod_eq_of_lt hfit, toInt32_natCast_toUint32, hv]

/-- Chunking never loses or reorders bytes: the concatenation of the
chunks is the original buffer (for a positive chunk size). -/
theorem chunkifyFuel_flatten (csize : Nat) (hcs : 0 < csize) :
    ∀ (fuel : Nat) (buf : List Nat), buf.length ≤ fuel →
      (chunkifyFuel csize fuel buf).flatten = buf := by
  intro fuel
  induction fuel with
  | zero =>
      intro buf hb
      have : buf = [] := List.eq_nil_of_length_eq_zero (by omega)
      subst this
      rfl
  | succ n ih =>
      intro buf hb
      cases buf with
      | nil => rfl
      | cons b rest =>
          rw [chunkifyFuel, if_neg (by omega), List.flatten_cons]
          rw [ih ((b :: rest).drop csize)
              (by simp only [List.length_drop, List.length_cons] at hb ⊢; omega)]
          exact List.take_append_drop csize (b :: rest)

/-- Chunking never loses or reorders bytes: the concatenation of the
chunks is the original buffer (for a positive chunk size). -/
theorem chunkify_flatten (csize : Nat) (hcs : 0 < csize) (buf : List Nat) :
    (chunkify csize buf).flatten = buf :=
  chunkifyFuel_flatten csize hcs buf.length buf le_rfl

/-! ### Stepping and concatenation lemmas for the byte-acceptance loop -/

namespace TinyFrame

theorem acceptList_cons (tf : TinyFrame) (b : Nat) (bs : List Nat) :
    tf.acceptList (b :: bs)
      = (((tf.acceptByte b).1.acceptList bs).1,
         ((tf.acceptByte b).2).toList ++ ((tf.acceptByte b).1.acceptList bs).2) := rfl

theorem acceptList_append (tf : TinyFrame) (xs ys : List Nat) :
    tf.acceptList (xs ++ ys)
      = (((tf.acceptList xs).1.acceptList ys).1,
         (tf.acceptList xs).2 ++ ((tf.acceptList xs).1.acceptList ys).2) := by
  induction xs generalizing tf with
  | nil => simp [acceptList]
  | cons b xs ih =>
      simp only [List.cons_append, acceptList_cons, ih]
      simp [List.append_assoc]

theorem acceptByte_sof_none (tf : TinyFrame) (b : Nat)
    (hpt : tf.parserTimeout = none) (hst : tf.state = .sof)
    (hsof : tf.sofByte = none) :
    tf.acceptByte b = (tf.beginFrame).acceptByte b := by
  unfold acceptByte
  simp [hpt, hst, hsof, beginFrame]

theorem acceptByte_sof_match (tf : TinyFrame) (b : Nat) (s : Int)
    (hpt : tf.parserTimeout = none) (hst : tf.state = .sof)
    (hsof : tf.sofByte = some s) (hb : (b : Int) = s) :
    tf.acceptByte b = ({ tf.beginFrame with data := [b] }, none) := by
  unfold acceptByte
  simp [hpt, hst, hsof, hb, beginFrame]

theorem acceptByte_id_last (tf : TinyFrame) (b : Nat)
    (hpt : tf.parserTimeout = none) (hst : tf.state = .id)
    (hfin : tf.partLen + 1 = tf.idSize) :
    tf.acceptByte b
      = ({ tf with data := tf.data ++ [b],
                   currentID := jsOr (jsShl tf.currentID 8) (b : Int),
                   state := .len, partLen := 0 }, none) := by
  unfold acceptByte
  simp [hpt, hst, hfin]

theorem acceptByte_id_mid (tf : TinyFrame) (b : Nat)
    (hpt : tf.parserTimeout = none) (hst : tf.state = .id)
    (hfin : tf.partLen + 1 ≠ tf.idSize) :
    tf.acceptByte b
      = ({ tf with data := tf.data ++ [b],
                   currentID := jsOr (jsShl tf.currentID 8) (b : Int),
                   partLen := tf.partLen + 1 }, none) := by
  unfold acceptByte
  simp [hpt, hst, hfin]

theorem acceptByte_len_last (tf : TinyFrame) (b : Nat)
    (hpt : tf.parserTimeout = none) (hst : tf.state = .len)
    (hfin : tf.partLen + 1 = tf.lenSize) :
    tf.acceptByte b
      = ({ tf with data := tf.data ++ [b],
                   len := jsOr (jsShl tf.len 8) (b : Int),
                   state := .type, partLen := 0 }, none) := by
  unfold acceptByte
  simp [hpt, hst, hfin]

theorem acceptByte_len_mid (tf : TinyFrame) (b : Nat)
    (hpt : tf.parserTimeout = none) (hst : tf.state = .len)
    (hfin : tf.partLen + 1 ≠ tf.lenSize) :
    tf.acceptByte b
      = ({ tf with data := tf.data ++ [b],
                   len := jsOr (jsShl tf.len 8) (b : Int),
                   partLen := tf.partLen + 1 }, none) := by
  unfold acceptByte
  simp [hpt, hst, hfin]

theorem acceptByte_type_last (tf : TinyFrame) (b : Nat)
    (hpt : tf.parserTimeout = none) (hst : tf.state = .type)
    (hfin : tf.partLen + 1 = tf.typeSize) :
    tf.acceptByte b
      = ({ tf with data := tf.data ++ [b],
                   currentType := jsOr (jsShl tf.currentType 8) (b : Int),
                   state := if tf.checksum.isSome then .headcksum else .data,
                   partLen := 0 }, none) := by
  unfold acceptByte
  simp [hpt, hst, hfin]

theorem acceptByte_type_mid (tf : TinyFrame) (b : Nat)
    (hpt : tf.parserTimeout = none) (hst : tf.state = .type)
    (hfin : tf.partLen + 1 ≠ tf.typeSize) :
    tf.acceptByte b
      = ({ tf with data := tf.data ++ [b],
                   currentType := jsOr (jsShl tf.currentType 8) (b : Int),
                   partLen := tf.partLen + 1 }, none) := by
  unfold acceptByte
  simp [hpt, hst, hfin]

theorem acceptByte_headck_mid (tf : TinyFrame) (b : Nat)
    (hpt : tf.parserTimeout = none) (hst : tf.state = .headcksum)
    (hfin : tf.partLen + 1 ≠ tf.cksize) :
    tf.acceptByte b
      = ({ tf with cksum := toUint32 (jsOr (jsShl (tf.cksum : Int) 8) (b : Int)),
                   partLen := tf.partLen + 1 }, none) := by
  unfold acceptByte
  simp [hpt, hst, hfin]

theorem acceptByte_headck_last_payload (tf : TinyFrame) (b : Nat)
    (c : TinyFrameChecksum)
    (hpt : tf.parserTimeout = none) (hst : tf.state = .headcksum)
    (hck : tf.checksum = some c)
    (hfin : tf.partLen + 1 = tf.cksize)
    (hsum : c.sum tf.data = toUint32 (jsOr (jsShl (tf.cksum : Int) 8) (b : Int)))
    (hlen : tf.len ≠ 0) :
    tf.acceptByte b
      = ({ tf with cksum := toUint32 (jsOr (jsShl (tf.cksum : Int) 8) (b : Int)),
                   data := [], state := .data, partLen := 0 }, none) := by
  unfold acceptByte
  simp [hpt, hst, hfin, hck, hsum, hlen]

theorem acceptByte_data_mid (tf : TinyFrame) (b : Nat)
    (hpt : tf.parserTimeout = none) (hst : tf.state = .data)
    (hfin : (tf.partLen : Int) + 1 ≠ tf.len) :
    tf.acceptByte b
      = ({ tf with data := tf.data ++ [b], partLen := tf.partLen + 1 }, none) := by
  unfold acceptByte
  simp [hpt, hst, hfin]

theorem acceptByte_data_last_ck (tf : TinyFrame) (b : Nat)
    (c : TinyFrameChecksum)
    (hpt : tf.parserTimeout = none) (hst : tf.state = .data)
    (hck : tf.checksum = some c)
    (hfin : (tf.partLen : Int) + 1 = tf.len) :
    tf.acceptByte b
      = ({ tf with data := tf.data ++ [b], state := .datacksum,
                   partLen := 0, cksum := 0 }, none) := by
  unfold acceptByte
  simp [hpt, hst, hfin, hck]

theorem acceptByte_datack_mid (tf : TinyFrame) (b : Nat)
    (hpt : tf.parserTimeout = none) (hst : tf.state = .datacksum)
    (hfin : tf.partLen + 1 ≠ tf.cksize) :
    tf.acceptByte b
      = ({ tf with cksum := toUint32 (jsOr (jsShl (tf.cksum : Int) 8) (b : Int)),
                   partLen := tf.partLen + 1 }, none) := by
  unfold acceptByte
  simp [hpt, hst, hfin]

theorem acceptByte_datack_last_ok (tf : TinyFrame) (b : Nat)
    (c : TinyFrameChecksum)
    (hpt : tf.parserTimeout = none) (hst : tf.state = .datacksum)
    (hck : tf.checksum = some c)
    (hfin : tf.partLen + 1 = tf.cksize)
    (hsum : c.sum tf.data = toUint32 (jsOr (jsShl (tf.cksum : Int) 8) (b : Int))) :
    tf.acceptByte b
      = ({ tf with cksum := toUint32 (jsOr (jsShl (tf.cksum : Int) 8) (b : Int)),
                   state := .sof, partLen := 0 },
         some { frameID := tf.currentID, type := tf.currentType,
                data := tf.data, isResponse := false }) := by
  unfold acceptByte
  simp [hpt, hst, hfin, hck, hsum, handleReceived]

/-- Consuming the full ID field advances the parser to `len`, pushing the
bytes into the buffer and accumulating the ID. -/
theorem run_id (bs : List Nat) :
    ∀ tf : TinyFrame, tf.parserTimeout = none → tf.state = .id → bs ≠ [] →
      tf.partLen + bs.length = tf.idSize →
      tf.acceptList bs
        = ({ tf with state := .len, partLen := 0,
                     currentID := recvAcc tf.currentID bs,
                     data := tf.data ++ bs }, []) := by
  induction bs with
  | nil => intro tf _ _ hne _; exact absurd rfl hne
  | cons b bs ih =>
      intro tf hpt hst hne hlen
      rw [acceptList_cons]
      by_cases hb : bs = []
      · subst hb
        have hfin : tf.partLen + 1 = tf.idSize := by simpa using hlen
        rw [acceptByte_id_last tf b hpt hst hfin]
        simp [acceptList, recvAcc]
      · have hpos : 0 < bs.length := List.length_pos.mpr hb
        have hfin : tf.partLen + 1 ≠ tf.idSize := by
          simp only [List.length_cons] at hlen; omega
        have hrec := ih { tf with data := tf.data ++ [b],
                                  currentID := jsOr (jsShl tf.currentID 8) (b : Int),
                                  partLen := tf.partLen + 1 }
          hpt hst hb
          (show tf.partLen + 1 + bs.length = tf.idSize by
            simp only [List.length_cons] at hlen; omega)
        rw [acceptByte_id_mid tf b hpt hst hfin]
        dsimp only
        rw [hrec]
        simp [recvAcc, List.append_assoc]

/-- Consuming the full LEN field advances the parser to `type`. -/
theorem run_len (bs : List Nat) :
    ∀ tf : TinyFrame, tf.parserTimeout = none → tf.state = .len → bs ≠ [] →
      tf.partLen + bs.length = tf.lenSize →
      tf.acceptList bs
        = ({ tf with state := .type, partLen := 0,
                     len := recvAcc tf.len bs,
                     data := tf.data ++ bs }, []) := by
  induction bs with
  | nil => intro tf _ _ hne _; exact absurd rfl hne
  | cons b bs ih =>
      intro tf hpt hst hne hlen
      rw [acceptList_cons]
      by_cases hb : bs = []
      · subst hb
        have hfin : tf.partLen + 1 = tf.lenSize := by simpa using hlen
        rw [acceptByte_len_last tf b hpt hst hfin]
        simp [acceptList, recvAcc]
      · have hfin : tf.partLen + 1 ≠ tf.lenSize := by
          have hpos : 0 < bs.length := List.length_pos.mpr hb
          simp only [List.length_cons] at hlen; omega
        have hrec := ih { tf with data := tf.data ++ [b],
                                  len := jsOr (jsShl tf.len 8) (b : Int),
                                  partLen := tf.partLen + 1 }
          hpt hst hb
          (show tf.partLen + 1 + bs.length = tf.lenSize by
            simp only [List.length_cons] at hlen; omega)
        rw [acceptByte_len_mid tf b hpt hst hfin]
        dsimp only
        rw [hrec]
        simp [recvAcc, List.append_assoc]

/-- Consuming the full TYPE field advances the parser to `headcksum` when
a checksum strategy is active. -/
theorem run_type (bs : List Nat) :
    ∀ tf : TinyFrame, tf.parserTimeout = none → tf.state = .type → bs ≠ [] →
      tf.checksum.isSome = true →
      tf.partLen + bs.length = tf.typeSize →
      tf.acceptList bs
        = ({ tf with state := .headcksum, partLen := 0,
                     currentType := recvAcc tf.currentType bs,
                     data := tf.data ++ bs }, []) := by
  induction bs with
  | nil => intro tf _ _ hne _ _; exact absurd rfl hne
  | cons b bs ih =>
      intro tf hpt hst hne hck hlen
      rw [acceptList_cons]
      by_cases hb : bs = []
      · subst hb
        have hfin : tf.partLen + 1 = tf.typeSize := by simpa using hlen
        rw [acceptByte_type_last tf b hpt hst hfin]
        simp [acceptList, recvAcc, hck]
      · have hfin : tf.partLen + 1 ≠ tf.typeSize := by
          have hpos : 0 < bs.length := List.length_pos.mpr hb
          simp only [List.length_cons] at hlen; omega
        have hrec := ih { tf with data := tf.data ++ [b],
                                  currentType := jsOr (jsShl tf.currentType 8) (b : Int),
                                  partLen := tf.partLen + 1 }
          hpt hst hb hck
          (show tf.partLen + 1 + bs.length = tf.typeSize by
            simp only [List.length_cons] at hlen; omega)
        rw [acceptByte_type_mid tf b hpt hst hfin]
        dsimp only
        rw [hrec]
        simp [recvAcc, List.append_assoc]

/-- Consuming the header checksum bytes of a nonempty-payload frame, with
a matching checksum, clears the buffer and advances to `data`. -/
theorem run_headck (bs : List Nat) :
    ∀ (tf : TinyFrame) (c : TinyFrameChecksum), tf.parserTimeout = none →
      tf.state = .headcksum → tf.checksum = some c → bs ≠ [] →
      tf.partLen + bs.length = c.size →
      c.sum tf.data = ckAcc tf.cksum bs → tf.len ≠ 0 →
      tf.acceptList bs
        = ({ tf with cksum := ckAcc tf.cksum bs, data := [], state := .data,
                     partLen := 0 }, []) := by
  induction bs with
  | nil => intro tf c _ _ _ hne _; exact absurd rfl hne
  | cons b bs ih =>
      intro tf c hpt hst hck hne hlen hsum hlen0
      rw [acceptList_cons]
      by_cases hb : bs = []
      · subst hb
        have hfin : tf.partLen + 1 = tf.cksize := by
          simp only [cksize, hck]; simpa using hlen
        rw [acceptByte_headck_last_payload tf b c hpt hst hck hfin
            (by simpa [ckAcc] using hsum) hlen0]
        simp [acceptList, ckAcc]
      · have hfin : tf.partLen + 1 ≠ tf.cksize := by
          have hpos : 0 < bs.length := List.length_pos.mpr hb
          simp only [cksize, hck]
          simp only [List.length_cons] at hlen; omega
        have hrec := ih { tf with
            cksum := toUint32 (jsOr (jsShl (tf.cksum : Int) 8) (b : Int)),
            partLen := tf.partLen + 1 }
          c hpt hst hck hb
          (show tf.partLen + 1 + bs.length = c.size by
            simp only [List.length_cons] at hlen; omega)
          hsum hlen0
        rw [acceptByte_headck_mid tf b hpt hst hfin]
        dsimp only
        rw [hrec]
        simp [ckAcc]

/-- Consuming the payload bytes (with a checksum strategy active) fills
the buffer with exactly the payload and advances to `datacksum`. -/
theorem run_data (bs : List Nat) :
    ∀ (tf : TinyFrame) (c : TinyFrameChecksum), tf.parserTimeout = none →
      tf.state = .data → tf.checksum = some c → bs ≠ [] →
      tf.len = ((tf.partLen + bs.length : Nat) : Int) →
      tf.acceptList bs
        = ({ tf with data := tf.data ++ bs, state := .datacksum,
                     partLen := 0, cksum := 0 }, []) := by
  induction bs with
  | nil => intro tf c _ _ _ hne _; exact absurd rfl hne
  | cons b bs ih =>
      intro tf c hpt hst hck hne hlen
      rw [acceptList_cons]
      by_cases hb : bs = []
      · subst hb
        have hfin : (tf.partLen : Int) + 1 = tf.len := by
          simp only [List.length_cons, List.length_nil] at hlen; omega
        rw [acceptByte_data_last_ck tf b c hpt hst hck hfin]
        simp [acceptList]
      · have hfin : (tf.partLen : Int) + 1 ≠ tf.len := by
          have hpos : 0 < bs.length := List.length_pos.mpr hb
          simp only [List.length_cons] at hlen; omega
        have hrec := ih { tf with data := tf.data ++ [b], partLen := tf.partLen + 1 }
          c hpt hst hck hb
          (show tf.len = ((tf.partLen + 1 + bs.length : Nat) : Int) by
            simp only [List.length_cons] at hlen; push_cast at hlen ⊢; omega)
        rw [acceptByte_data_mid tf b hpt hst hfin]
        dsimp only
        rw [hrec]
        simp [List.append_assoc]

/-- Consuming the payload checksum bytes with a matching checksum
dispatches the received message and resets the parser. -/
theorem run_datack (bs : List Nat) :
    ∀ (tf : TinyFrame) (c : TinyFrameChecksum), tf.parserTimeout = none →
      tf.state = .datacksum → tf.checksum = some c → bs ≠ [] →
      tf.partLen + bs.length = c.size →
      c.sum tf.data = ckAcc tf.cksum bs →
      tf.acceptList bs
        = ({ tf with cksum := ckAcc tf.cksum bs, state := .sof, partLen := 0 },
           [{ frameID := tf.currentID, type := tf.currentType,
              data := tf.data, isResponse := false }]) := by
  induction bs with
  | nil => intro tf c _ _ _ hne _; exact absurd rfl hne
  | cons b bs ih =>
      intro tf c hpt hst hck hne hlen hsum
      rw [acceptList_cons]
      by_cases hb : bs = []
      · subst hb
        have hfin : tf.partLen + 1 = tf.cksize := by
          simp only [cksize, hck]; simpa using hlen
        rw [acceptByte_datack_last_ok tf b c hpt hst hck hfin
            (by simpa [ckAcc] using hsum)]
        simp [acceptList, ckAcc]
      · have hfin : tf.partLen + 1 ≠ tf.cksize := by
          have hpos : 0 < bs.length := List.length_pos.mpr hb
          simp only [cksize, hck]
          simp only [List.length_cons] at hlen; omega
        have hrec := ih { tf with
            cksum := toUint32 (jsOr (jsShl (tf.cksum : Int) 8) (b : Int)),
            partLen := tf.partLen + 1 }
          c hpt hst hck hb
          (show tf.partLen + 1 + bs.length = c.size by
            simp only [List.length_cons] at hlen; omega)
          hsum
        rw [acceptByte_datack_mid tf b hpt hst hfin]
        dsimp only
        rw [hrec]
        simp [ckAcc]

/-- Feeding chunks one after the other is the same as feeding their
concatenation: the parser has no memory of chunk boundaries. -/
theorem acceptChunks_eq_flatten (cs : List (List Nat)) :
    ∀ tf : TinyFrame, tf.acceptChunks cs = tf.acceptList cs.flatten := by
  induction cs with
  | nil => intro tf; simp [acceptChunks, acceptList]
  | cons c cs ih =>
      intro tf
      have hc : tf.acceptChunks (c :: cs)
          = (((tf.acceptList c).1.acceptChunks cs).1,
             (tf.acceptList c).2 ++ ((tf.acceptList c).1.acceptChunks cs).2) := rfl
      rw [hc, ih, List.flatten_cons, acceptList_append]

end TinyFrame

/-! ### Characterization of the outbound path -/

theorem composeHead_spec (tf : TinyFrame) (m : Message) :
    tf.composeHead m
      = ((if m.isResponse then tf else { tf with nextID := tf.nextID + 1 }),
         { m with frameID := stampID tf m }, headerBytes tf m) := by
  unfold TinyFrame.composeHead headerBytes headerCore
  cases hm : m.isResponse <;>
    simp [TinyFrame.getNextID, hm, stampID, preID]

theorem sendFrame_spec (tf : TinyFrame) (m : Message)
    (cb : Option (Nat × Option Int)) :
    tf.sendFrame m cb
      = ((match cb with
          | some p =>
              (if m.isResponse then tf
               else { tf with nextID := tf.nextID + 1
                }).addIDListener (stampID tf m) p.1 p.2
          | none => if m.isResponse then tf else { tf with nextID := tf.nextID + 1 }),
         { m with frameID := stampID tf m },
         chunkify tf.chunkSize (headerBytes tf m ++ bodyBytes tf m)) := by
  unfold TinyFrame.sendFrame bodyBytes
  rw [composeHead_spec]
  cases cb <;> rcases h : tf.checksum with _ | c <;> simp [h]

/-! ### List helpers for dispatch and listener-registry claims -/

theorem map_if_eq_self {α : Type} (f : α → α) (p : α → Prop) [DecidablePred p] :
    ∀ l : List α, (∀ x ∈ l, ¬p x) →
      (l.map fun x => if p x then f x else x) = l := by
  intro l
  induction l with
  | nil => intro _; rfl
  | cons x xs ih =>
      intro h
      simp only [List.map_cons]
      rw [if_neg (h x (by simp)), ih (fun y hy => h y (by simp [hy]))]

theorem foldl_collect {α : Type} (p : α → Prop) [DecidablePred p] (f : α → Nat) :
    ∀ (l : List α) (acc : List Nat),
      l.foldl (fun acc x => if p x then acc ++ [f x] else acc) acc
        = acc ++ (l.filter fun x => decide (p x)).map f := by
  intro l
  induction l with
  | nil => intro acc; simp
  | cons x l ih =>
      intro acc
      by_cases hx : p x
      · simp only [List.foldl_cons, if_pos hx, List.filter_cons,
          decide_eq_true_eq, hx, if_pos, ih]
        simp [hx]
      · simp only [List.foldl_cons, if_neg hx, List.filter_cons, ih]
        simp [hx]

theorem findIdx?_first {α : Type} (p : α → Bool) :
    ∀ (pre : List α) (e : α) (rest : List α) (i : Nat),
      (∀ x ∈ pre, p x = false) → p e = true →
      List.findIdx? p (pre ++ e :: rest) i = some (i + pre.length) := by
  intro pre
  induction pre with
  | nil =>
      intro e rest i _ he
      simp [List.findIdx?, he]
  | cons x pre ih =>
      intro e rest i hpre he
      have hx : p x = false := hpre x (by simp)
      rw [List.cons_append]
      rw [show List.findIdx? p (x :: (pre ++ e :: rest)) i
          = if p x then some i else List.findIdx? p (pre ++ e :: rest) (i + 1)
          from rfl]
      rw [hx]
      simp only [Bool.false_eq_true, if_false]
      rw [ih e rest (i + 1) (fun y hy => hpre y (by simp [hy])) he]
      congr 1
      simp only [List.length_cons]
      omega

theorem eraseIdx_at_length {α : Type} :
    ∀ (pre : List α) (e : α) (rest : List α),
      (pre ++ e :: rest).eraseIdx pre.length = pre ++ rest := by
  intro pre
  induction pre with
  | nil => intro e rest; simp [List.eraseIdx]
  | cons x pre ih => intro e rest; simp [List.eraseIdx, ih]

theorem allocStep_iter (n : Nat) :
    ∀ tf : TinyFrame, (allocStep^[n] tf) = { tf with nextID := tf.nextID + (n : Int) } := by
  induction n with
  | zero => intro tf; simp
  | succ n ih =>
      intro tf
      rw [Function.iterate_succ_apply,
          show allocStep tf = { tf with nextID := tf.nextID + 1 } from rfl, ih]
      simp only [TinyFrame.mk.injEq, and_true, true_and]
      push_cast
      ring

/-! ### Claims -/

/-- C5 (counterexample): `respond` does not restore `isResponse` to its
prior value — a message that was already flagged as a response comes back
with the flag cleared to `false`, contradicting the claim that it remains
`true`. -/
theorem claim_C5_counterexample :
    ({ frameID := 3, type := 1, data := [], isResponse := true } : Message).isResponse = true
    ∧ (((TinyFrame.newWith 0).respond
        { frameID := 3, type := 1, data := [], isResponse := true }).2.1).isResponse
      = false := by
  constructor
  · rfl
  · rfl

/-- C5 (amended): `respond(m)` transmits `m` with `isResponse = true`
(the wire bytes and the stamped frame ID are those of sending the
flag-true message), and after `respond` returns the message's
`isResponse` is unconditionally `false`, regardless of its prior
value. -/
theorem claim_C5 (tf : TinyFrame) (m : Message) :
    ((tf.respond m).2.1).isResponse = false
    ∧ (tf.respond m).2.2 = (tf.sendFrame { m with isResponse := true } none).2.2
    ∧ ((tf.respond m).2.1).frameID
        = ((tf.sendFrame { m with isResponse := true } none).2.1).frameID
    ∧ (tf.respond m).1 = (tf.sendFrame { m with isResponse := true } none).1 := by
  unfold TinyFrame.respond TinyFrame.send
  refine ⟨rfl, rfl, rfl, rfl⟩

/-- C6 (counterexample): the frame-ID counter does not wrap at
`2^(idSize*8)`.  On a `peer = 0` engine with a one-byte ID field, after
256 allocations the next send stamps `frameID = 256`, which is not
representable in one byte. -/
theorem claim_C6_counterexample :
    (((allocStep^[256] tfTiny).composeHead (Message.new 5 [])).2.1).frameID = 256
    ∧ ¬((256 : Int) < 2 ^ (8 * 1)) := by
  constructor
  · rw [allocStep_iter, composeHead_spec]
    simp [stampID, preID, tfTiny, TinyFrame.newWith, Message.new]
  · decide

/-- C6 (amended): `getNextID` increases the counter by exactly 1 per
allocation and never wraps: after `n` allocations the counter is the
initial value plus `n`, a non-response send stamps exactly that value
(before peer-bit stamping), and it is representable in `idSize` bytes
only as long as fewer than `2^(idSize*8)` allocations have occurred
(from a fresh counter). -/
theorem claim_C6 (tf : TinyFrame) (n : Nat) (m : Message)
    (hm : m.isResponse = false) :
    (allocStep^[n] tf).nextID = tf.nextID + (n : Int)
    ∧ preID (allocStep^[n] tf) m = tf.nextID + (n : Int)
    ∧ (tf.nextID = 0 → n < 2 ^ (8 * tf.idSize) →
        0 ≤ preID (allocStep^[n] tf) m
        ∧ preID (allocStep^[n] tf) m < ((2 ^ (8 * tf.idSize) : Nat) : Int)) := by
  rw [allocStep_iter]
  refine ⟨rfl, by simp [preID, hm], ?_⟩
  intro h0 hn
  simp only [preID, hm, Bool.false_eq_true, if_neg, if_false, h0, zero_add]
  constructor
  · exact Int.natCast_nonneg n
  · exact_mod_cast hn

/-- C6 (witness). -/
theorem claim_C6_witness :
    (allocStep^[3] tfTiny).nextID = tfTiny.nextID + (3 : Int)
    ∧ preID (allocStep^[3] tfTiny) (Message.new 5 []) = tfTiny.nextID + (3 : Int)
    ∧ (tfTiny.nextID = 0 → 3 < 2 ^ (8 * tfTiny.idSize) →
        0 ≤ preID (allocStep^[3] tfTiny) (Message.new 5 [])
        ∧ preID (allocStep^[3] tfTiny) (Message.new 5 [])
            < ((2 ^ (8 * tfTiny.idSize) : Nat) : Int)) :=
  claim_C6 tfTiny 3 (Message.new 5 []) rfl

/-- C7: on dispatch of a validated inbound frame, the invoked callbacks
are exactly: every ID listener whose `id` equals the message's `frameID`
(in registration order), then every type listener matching the message's
`type`, then every generic listener — all matching entries fire, each
exactly once. -/
theorem claim_C7 (tf : TinyFrame) (msg : Message) :
    tf.dispatchCalls msg
      = ((tf.idListeners.filter fun l => l.id = msg.frameID).map
            IDListenerEntry.callback)
        ++ ((tf.typeListeners.filter fun l => l.type = msg.type).map
            TypeListenerEntry.callback)
        ++ tf.genericListeners
    ∧ (tf.dispatchCalls msg).length
        = (tf.idListeners.filter fun l => l.id = msg.frameID).length
          + (tf.typeListeners.filter fun l => l.type = msg.type).length
          + tf.genericListeners.length := by
  have h : tf.dispatchCalls msg
      = ((tf.idListeners.filter fun l => l.id = msg.frameID).map
            IDListenerEntry.callback)
        ++ ((tf.typeListeners.filter fun l => l.type = msg.type).map
            TypeListenerEntry.callback)
        ++ tf.genericListeners := by
    unfold TinyFrame.dispatchCalls
    rw [foldl_collect (fun l => l.id = msg.frameID) IDListenerEntry.callback
        tf.idListeners []]
    rw [foldl_collect (fun l => l.type = msg.type) TypeListenerEntry.callback
        tf.typeListeners []]
    simp
  refine ⟨h, ?_⟩
  rw [h]
  simp only [List.length_append, List.length_map]

/-- C8: sending on an engine whose `write` sink was never assigned fails
loudly — the default sink throws `'No write implementation'` on the first
chunk of any `send`/`sendFrame`/`query` (and the error propagates to the
caller instead of being swallowed). -/
theorem claim_C8 (m : Message) (cb : Option (Nat × Option Int)) :
    runSink defaultWrite ((TinyFrame.new.sendFrame m cb).2.2)
      = Except.error "No write implementation" := by
  have hone : ∀ buf : List Nat, buf ≠ [] →
      runSink defaultWrite (chunkify 1024 buf)
        = Except.error "No write implementation" := by
    intro buf hb
    cases buf with
    | nil => exact absurd rfl hb
    | cons b rest => rfl
  rw [sendFrame_spec]
  dsimp only
  have hchunk : TinyFrame.new.chunkSize = 1024 := rfl
  rw [hchunk]
  apply hone
  intro hempty
  have hlen := congrArg List.length hempty
  simp only [List.length_append, List.length_nil, headerBytes, headerCore,
    writeUIntBE, beBytes_length] at hlen
  have hidsz : TinyFrame.new.idSize = 4 := rfl
  rw [hidsz] at hlen
  omega

/-- C9: with several ID-listener entries sharing one callback reference,
`removeIDListener` removes only the first matching entry (the others stay
registered), while `renewIDListener` resets the countdown of every
matching entry to its original `maxTimeout`. -/
theorem claim_C9 (tf : TinyFrame) (cb : Nat)
    (pre mid post : List IDListenerEntry) (e₁ e₂ : IDListenerEntry)
    (hpre : ∀ x ∈ pre, x.callback ≠ cb)
    (he₁ : e₁.callback = cb) (he₂ : e₂.callback = cb)
    (hl : tf.idListeners = pre ++ e₁ :: (mid ++ e₂ :: post)) :
    (tf.removeIDListener cb).idListeners = pre ++ (mid ++ e₂ :: post)
    ∧ (tf.renewIDListener cb).idListeners
        = pre ++ ({ e₁ with timeout := e₁.maxTimeout } ::
            (mid.map (fun l => if l.callback = cb
                then { l with timeout := l.maxTimeout } else l)
              ++ { e₂ with timeout := e₂.maxTimeout } ::
                post.map (fun l => if l.callback = cb
                  then { l with timeout := l.maxTimeout } else l))) := by
  constructor
  · unfold TinyFrame.removeIDListener
    rw [hl]
    rw [findIdx?_first (fun l => decide (l.callback = cb)) pre e₁ _ 0
        (fun x hx => by simp [hpre x hx]) (by simp [he₁])]
    simp only [Nat.zero_add]
    exact eraseIdx_at_length pre e₁ (mid ++ e₂ :: post)
  · unfold TinyFrame.renewIDListener
    rw [hl]
    simp only [List.map_append, List.map_cons]
    rw [if_pos he₁, if_pos he₂,
        map_if_eq_self (fun l => { l with timeout := l.maxTimeout })
          (fun l : IDListenerEntry => l.callback = cb) pre hpre]

/-- C9 (witness). -/
theorem claim_C9_witness :
    (({ tfTiny with idListeners :=
          [{ id := 9, callback := 4, timeout := some 5, maxTimeout := some 5 },
           { id := 1, callback := 7, timeout := some 2, maxTimeout := some 6 },
           { id := 2, callback := 7, timeout := some 3, maxTimeout := some 8 }] }
        : TinyFrame).removeIDListener 7).idListeners
      = [{ id := 9, callback := 4, timeout := some 5, maxTimeout := some 5 },
         { id := 2, callback := 7, timeout := some 3, maxTimeout := some 8 }]
    ∧ (({ tfTiny with idListeners :=
          [{ id := 9, callback := 4, timeout := some 5, maxTimeout := some 5 },
           { id := 1, callback := 7, timeout := some 2, maxTimeout := some 6 },
           { id := 2, callback := 7, timeout := some 3, maxTimeout := some 8 }] }
        : TinyFrame).renewIDListener 7).idListeners
      = [{ id := 9, callback := 4, timeout := some 5, maxTimeout := some 5 },
         { id := 1, callback := 7, timeout := some 6, maxTimeout := some 6 },
         { id := 2, callback := 7, timeout := some 8, maxTimeout := some 8 }] := by
  have h := claim_C9
    ({ tfTiny with idListeners :=
        [{ id := 9, callback := 4, timeout := some 5, maxTimeout := some 5 },
         { id := 1, callback := 7, timeout := some 2, maxTimeout := some 6 },
         { id := 2, callback := 7, timeout := some 3, maxTimeout := some 8 }] })
    7
    [{ id := 9, callback := 4, timeout := some 5, maxTimeout := some 5 }] []
    []
    { id := 1, callback := 7, timeout := some 2, maxTimeout := some 6 }
    { id := 2, callback := 7, timeout := some 3, maxTimeout := some 8 }
    (by decide) (by decide) (by decide) rfl
  exact ⟨h.1, h.2⟩

/-- C10: an engine constructed with no `peer` argument defaults to
`peer = 1` (slave), and on any `peer = 1` engine with the default
`idSize = 4`, every frame ID stamped by `composeHead` — freshly allocated
or re-stamped — has the most significant bit of the 4-byte ID field
set. -/
theorem claim_C10 :
    TinyFrame.new.peer = 1
    ∧ ∀ (tf : TinyFrame) (m : Message), tf.peer = 1 → tf.idSize = 4 →
        Nat.testBit (toUint32 (((tf.composeHead m).2.1).frameID)) 31 = true := by
  refine ⟨rfl, ?_⟩
  intro tf m hpeer hid
  rw [composeHead_spec]
  dsimp only
  unfold stampID
  rw [if_pos hpeer, hid]
  unfold jsOr
  rw [toUint32_toInt32]
  have hsh : toUint32 (jsShl 1 (4 * 8 - 1)) = 2 ^ 31 := by decide
  rw [hsh]
  have hu32 : toUint32 (preID tf m) < 2 ^ 32 := toUint32_lt _
  have hor32 : toUint32 (preID tf m) ||| 2 ^ 31 < 2 ^ 32 :=
    Nat.or_lt_two_pow hu32 (by norm_num)
  rw [toUint32_natCast_of_lt hor32]
  rw [Nat.testBit_lor, Nat.testBit_two_pow_self, Bool.or_true]

/-- C10 (witness). -/
theorem claim_C10_witness :
    TinyFrame.new.peer = 1
    ∧ Nat.testBit
        (toUint32 (((TinyFrame.new.composeHead (Message.new 0 [])).2.1).frameID))
        31 = true :=
  ⟨claim_C10.1, claim_C10.2 TinyFrame.new (Message.new 0 []) rfl rfl⟩

theorem acceptByte_forced_reset (tf : TinyFrame) (b : Nat) (t : Int)
    (ht : tf.parserTimeout = some t) (hgt : t < tf.parserTimeoutTicks) :
    tf.acceptByte b = (tf.resetParser).acceptByte b := by
  unfold TinyFrame.acceptByte
  simp [ht, hgt, TinyFrame.resetParser]

theorem acceptByte_fused (tf : TinyFrame) (b : Nat) (t : Int)
    (ht : tf.parserTimeout = some t) (hgt : t < tf.parserTimeoutTicks)
    (hid : 2 ≤ tf.idSize) :
    (tf.acceptByte b).2 = none
    ∧ (tf.acceptByte b).1.parserTimeout = tf.parserTimeout
    ∧ (tf.acceptByte b).1.parserTimeoutTicks = tf.parserTimeoutTicks
    ∧ (tf.acceptByte b).1.idSize = tf.idSize := by
  unfold TinyFrame.acceptByte
  have h1 : ¬(0 + 1 = tf.idSize) := by omega
  rcases hsof : tf.sofByte with _ | s
  · simp [ht, hgt, TinyFrame.resetParser, TinyFrame.beginFrame, hsof, h1]
  · simp only [ht, hgt, TinyFrame.resetParser, TinyFrame.beginFrame, hsof]
    by_cases hbs : (b : Int) = s <;> simp [hbs]

/-- C4 (counterexample): the tick counter is never reset, so a parser
that was idle (in `sof`, not stalled mid-frame) while 3 ticks elapsed
against a threshold of 2 drops a complete valid frame delivered
afterwards with no intervening ticks — no message is dispatched — even
though the same byte stream dispatches exactly one message on the same
engine before the ticks.  Under the claim, the countdown would have
restarted at the forced reset and the frame would have been parsed. -/
theorem claim_C4_counterexample :
    ((tfTimeout.tick.tick.tick).acceptList [0, 1, 1, 7, 9]).2 = []
    ∧ (tfTimeout.acceptList [0, 1, 1, 7, 9]).2
        = [{ frameID := 1, type := 7, data := [0, 1, 1, 7, 9],
             isResponse := false }] :=
  ⟨by decide, by decide⟩

/-- C4 (amended): `tick()` increments `parserTimeoutTicks`, and the
counter is never reset: once it exceeds a finite `parserTimeout`, every
`acceptByte` call first forcibly resets the parser to `sof` and — with a
multi-byte ID field — no byte stream ever completes a frame again (no
dispatch, and the tick counter is unchanged by byte acceptance). -/
theorem claim_C4 (tf : TinyFrame) (t : Int)
    (ht : tf.parserTimeout = some t)
    (hgt : t < tf.parserTimeoutTicks)
    (hid : 2 ≤ tf.idSize) :
    (tf.tick).parserTimeoutTicks = tf.parserTimeoutTicks + 1
    ∧ (∀ b, tf.acceptByte b = (tf.resetParser).acceptByte b)
    ∧ ∀ bs : List Nat, (tf.acceptList bs).2 = []
        ∧ (tf.acceptList bs).1.parserTimeoutTicks = tf.parserTimeoutTicks := by
  refine ⟨rfl, fun b => acceptByte_forced_reset tf b t ht hgt, ?_⟩
  suffices h : ∀ (bs : List Nat) (tf' : TinyFrame),
      tf'.parserTimeout = some t → t < tf'.parserTimeoutTicks →
      2 ≤ tf'.idSize →
      (tf'.acceptList bs).2 = []
      ∧ (tf'.acceptList bs).1.parserTimeoutTicks = tf'.parserTimeoutTicks by
    exact fun bs => h bs tf ht hgt hid
  intro bs
  induction bs with
  | nil => intro tf' _ _ _; exact ⟨rfl, rfl⟩
  | cons b bs ih =>
      intro tf' ht' hgt' hid'
      have hf := acceptByte_fused tf' b t ht' hgt' hid'
      have ht'' : ((tf'.acceptByte b).1).parserTimeout = some t := by
        rw [hf.2.1, ht']
      have hgt'' : t < ((tf'.acceptByte b).1).parserTimeoutTicks := by
        rw [hf.2.2.1]; exact hgt'
      have hid'' : 2 ≤ ((tf'.acceptByte b).1).idSize := by
        rw [hf.2.2.2]; exact hid'
      have hrec := ih ((tf'.acceptByte b).1) ht'' hgt'' hid''
      rw [TinyFrame.acceptList_cons]
      refine ⟨?_, ?_⟩
      · simp [hf.1, hrec.1]
      · simpa [hrec.2] using hf.2.2.1

/-- C4 (witness). -/
theorem claim_C4_witness :
    ((tfTimeout.tick.tick.tick).tick).parserTimeoutTicks
        = (tfTimeout.tick.tick.tick).parserTimeoutTicks + 1
    ∧ ((tfTimeout.tick.tick.tick).acceptList [0, 1, 1, 7, 9]).2 = [] :=
  ⟨(claim_C4 (tfTimeout.tick.tick.tick) 2 (by decide) (by decide) (by decide)).1,
   ((claim_C4 (tfTimeout.tick.tick.tick) 2 (by decide) (by decide)
      (by decide)).2.2 [0, 1, 1, 7, 9]).1⟩

theorem writeUIntBE_length (v : Int) (n : Nat) : (writeUIntBE v n).length = n :=
  beBytes_length _ _

theorem writeUIntBE_ne_nil (v : Int) {n : Nat} (hn : 1 ≤ n) :
    writeUIntBE v n ≠ [] := by
  intro h
  have := congrArg List.length h
  rw [writeUIntBE_length] at this
  simp at this
  omega

theorem acceptList_sof_none (rx : TinyFrame) (l : List Nat)
    (hpt : rx.parserTimeout = none) (hst : rx.state = .sof)
    (hsofn : rx.sofByte = none) (hl : l ≠ []) :
    rx.acceptList l = (rx.beginFrame).acceptList l := by
  cases l with
  | nil => exact absurd rfl hl
  | cons b bs =>
      rw [TinyFrame.acceptList_cons, TinyFrame.acceptList_cons,
          TinyFrame.acceptByte_sof_none rx b hpt hst hsofn]

/-- Consuming the ID, LEN and TYPE fields from the start of a frame (a
checksum strategy being active) brings the parser to `headcksum`, with
all three fields accumulated and every byte pushed into the buffer. -/
theorem run_fields (tf : TinyFrame) (m : Message) (E : TinyFrame)
    (hpt : E.parserTimeout = none) (hst : E.state = .id) (hplen : E.partLen = 0)
    (hid : E.idSize = tf.idSize) (hlen : E.lenSize = tf.lenSize)
    (hty : E.typeSize = tf.typeSize) (hck : E.checksum.isSome = true)
    (hid1 : 1 ≤ tf.idSize) (hlen1 : 1 ≤ tf.lenSize) (hty1 : 1 ≤ tf.typeSize) :
    E.acceptList (writeUIntBE (stampID tf m) tf.idSize
        ++ (writeUIntBE (m.data.length : Int) tf.lenSize
          ++ writeUIntBE m.type tf.typeSize))
      = ({ E with state := .headcksum, partLen := 0,
                  currentID := recvAcc E.currentID
                    (writeUIntBE (stampID tf m) tf.idSize),
                  len := recvAcc E.len
                    (writeUIntBE (m.data.length : Int) tf.lenSize),
                  currentType := recvAcc E.currentType
                    (writeUIntBE m.type tf.typeSize),
                  data := E.data ++ (writeUIntBE (stampID tf m) tf.idSize
                    ++ (writeUIntBE (m.data.length : Int) tf.lenSize
                      ++ writeUIntBE m.type tf.typeSize)) }, []) := by
  rw [TinyFrame.acceptList_append]
  rw [TinyFrame.run_id (writeUIntBE (stampID tf m) tf.idSize) E hpt hst
      (writeUIntBE_ne_nil _ hid1)
      (by rw [hplen, writeUIntBE_length, hid]; omega)]
  dsimp only
  rw [TinyFrame.acceptList_append]
  rw [TinyFrame.run_len (writeUIntBE (m.data.length : Int) tf.lenSize)
      { E with state := .len, partLen := 0,
               currentID := recvAcc E.currentID (writeUIntBE (stampID tf m) tf.idSize),
               data := E.data ++ writeUIntBE (stampID tf m) tf.idSize }
      hpt rfl (writeUIntBE_ne_nil _ hlen1)
      (by show 0 + (writeUIntBE (m.data.length : Int) tf.lenSize).length = E.lenSize
          rw [writeUIntBE_length, hlen]; omega)]
  dsimp only
  rw [TinyFrame.run_type (writeUIntBE m.type tf.typeSize)
      { E with state := .type, partLen := 0,
               currentID := recvAcc E.currentID (writeUIntBE (stampID tf m) tf.idSize),
               len := recvAcc E.len (writeUIntBE (m.data.length : Int) tf.lenSize),
               data := E.data ++ writeUIntBE (stampID tf m) tf.idSize
                  ++ writeUIntBE (m.data.length : Int) tf.lenSize }
      hpt rfl (writeUIntBE_ne_nil _ hty1) hck
      (by show 0 + (writeUIntBE m.type tf.typeSize).length = E.typeSize
          rw [writeUIntBE_length, hty]; omega)]
  simp [List.append_assoc]

/-- A fresh receiver consumes the checksum window of a frame header —
the SOF byte when configured, then ID, LEN, TYPE — and stops in
`headcksum` with the parser buffer holding exactly that window. -/
theorem run_header (tf rx : TinyFrame) (m : Message)
    (hpt : rx.parserTimeout = none) (hst : rx.state = .sof)
    (hsof : rx.sofByte = tf.sofByte)
    (hsofR : tf.sofByte = none ∨ ∃ s, tf.sofByte = some s ∧ 0 ≤ s ∧ s < 256)
    (hid : rx.idSize = tf.idSize) (hlen : rx.lenSize = tf.lenSize)
    (hty : rx.typeSize = tf.typeSize) (hck : rx.checksum.isSome = true)
    (hid1 : 1 ≤ tf.idSize) (hlen1 : 1 ≤ tf.lenSize) (hty1 : 1 ≤ tf.typeSize) :
    rx.acceptList (headerCore tf m)
      = ({ rx with state := .headcksum, partLen := 0,
                   currentID := recvAcc 0 (writeUIntBE (stampID tf m) tf.idSize),
                   len := recvAcc 0 (writeUIntBE (m.data.length : Int) tf.lenSize),
                   currentType := recvAcc 0 (writeUIntBE m.type tf.typeSize),
                   cksum := 0, data := headerCore tf m }, []) := by
  rcases hsofR with hnone | ⟨s, hs, hs0, hs1⟩
  · have hcore : headerCore tf m
        = writeUIntBE (stampID tf m) tf.idSize
            ++ (writeUIntBE (m.data.length : Int) tf.lenSize
              ++ writeUIntBE m.type tf.typeSize) := by
      simp [headerCore, hnone, List.append_assoc]
    rw [hcore]
    rw [acceptList_sof_none rx _ hpt hst (hsof.trans hnone)
        (by simp [writeUIntBE_ne_nil _ hid1])]
    rw [run_fields tf m rx.beginFrame hpt rfl rfl hid hlen hty hck hid1 hlen1 hty1]
    simp [TinyFrame.beginFrame]
  · have hcore : headerCore tf m
        = toUint8 s :: (writeUIntBE (stampID tf m) tf.idSize
            ++ (writeUIntBE (m.data.length : Int) tf.lenSize
              ++ writeUIntBE m.type tf.typeSize)) := by
      simp [headerCore, hs, List.append_assoc]
    rw [hcore]
    rw [TinyFrame.acceptList_cons]
    have hbval : ((toUint8 s : Nat) : Int) = s := by
      unfold toUint8 toUint32
      omega
    rw [TinyFrame.acceptByte_sof_match rx (toUint8 s) s hpt hst
        (hsof.trans hs) hbval]
    dsimp only
    rw [run_fields tf m { rx.beginFrame with data := [toUint8 s] }
        hpt rfl rfl hid hlen hty hck hid1 hlen1 hty1]
    simp [TinyFrame.beginFrame]

/-- C3 (counterexample): with a SOF byte configured (0x01) and the XOR
checksum active on a one-byte-field engine, `composeHead` for
`Message(type=5, data=[2])` emits the header `[1, 0, 1, 5, 5]`: the
emitted checksum byte is 5 = XOR over SOF+ID+LEN+TYPE `[1,0,1,5]`,
whereas XOR over ID+LEN+TYPE only would be 4 — the SOF byte is not
excluded.  The parser's buffer at `headcksum` likewise holds the SOF
byte. -/
theorem claim_C3_counterexample :
    (tfSof.composeHead (Message.new 5 [2])).2.2 = [1, 0, 1, 5, 5]
    ∧ checksumXor.sum [1, 0, 1, 5] = 5
    ∧ checksumXor.sum [0, 1, 5] = 4
    ∧ ¬(5 : Nat) = 4
    ∧ ((tfSof.acceptList [1, 0, 1, 5]).1).state = TFState.headcksum
    ∧ ((tfSof.acceptList [1, 0, 1, 5]).1).data = [1, 0, 1, 5] :=
  ⟨by decide, by decide, by decide, by decide, by decide, by decide⟩

/-- C3 (amended): when a SOF byte and a checksum strategy are both
configured, the header checksum that `composeHead` emits is computed over
the SOF byte followed by the ID, LEN and TYPE bytes — the SOF byte is
included in the checksum window — and the parser's `headcksum` state
validates over exactly the same window: after consuming the
SOF+ID+LEN+TYPE bytes a fresh matching receiver is in `headcksum` with
its buffer holding exactly those bytes (the window `c.sum` is applied
to). -/
theorem claim_C3 (tf rx : TinyFrame) (m : Message) (c : TinyFrameChecksum)
    (s : Int)
    (hsof : tf.sofByte = some s) (hs0 : 0 ≤ s) (hs1 : s < 256)
    (hck : tf.checksum = some c)
    (hid1 : 1 ≤ tf.idSize) (hlen1 : 1 ≤ tf.lenSize) (hty1 : 1 ≤ tf.typeSize)
    (hrpt : rx.parserTimeout = none) (hrst : rx.state = .sof)
    (hrsof : rx.sofByte = tf.sofByte)
    (hrid : rx.idSize = tf.idSize) (hrlen : rx.lenSize = tf.lenSize)
    (hrty : rx.typeSize = tf.typeSize) (hrck : rx.checksum.isSome = true) :
    (tf.composeHead m).2.2
      = headerCore tf m ++ writeUIntBE ((c.sum (headerCore tf m)) : Int) c.size
    ∧ headerCore tf m
        = toUint8 s :: (writeUIntBE (stampID tf m) tf.idSize
            ++ (writeUIntBE (m.data.length : Int) tf.lenSize
              ++ writeUIntBE m.type tf.typeSize))
    ∧ ((rx.acceptList (headerCore tf m)).1).state = TFState.headcksum
    ∧ ((rx.acceptList (headerCore tf m)).1).data = headerCore tf m := by
  have hdr := run_header tf rx m hrpt hrst hrsof
    (Or.inr ⟨s, hsof, hs0, hs1⟩) hrid hrlen hrty hrck hid1 hlen1 hty1
  refine ⟨?_, ?_, ?_, ?_⟩
  · rw [composeHead_spec]
    dsimp only
    unfold headerBytes
    rw [hck]
  · simp [headerCore, hsof, List.append_assoc]
  · rw [hdr]
  · rw [hdr]

/-- C3 (witness). -/
theorem claim_C3_witness :
    (tfSof.composeHead (Message.new 5 [2])).2.2
      = headerCore tfSof (Message.new 5 [2])
        ++ writeUIntBE ((checksumXor.sum (headerCore tfSof (Message.new 5 [2]))) : Int)
            checksumXor.size
    ∧ headerCore tfSof (Message.new 5 [2])
        = toUint8 1 :: (writeUIntBE (stampID tfSof (Message.new 5 [2])) tfSof.idSize
            ++ (writeUIntBE ((Message.new 5 [2]).data.length : Int) tfSof.lenSize
              ++ writeUIntBE (Message.new 5 [2]).type tfSof.typeSize))
    ∧ ((tfSof.acceptList (headerCore tfSof (Message.new 5 [2]))).1).state
        = TFState.headcksum
    ∧ ((tfSof.acceptList (headerCore tfSof (Message.new 5 [2]))).1).data
        = headerCore tfSof (Message.new 5 [2]) :=
  claim_C3 tfSof tfSof (Message.new 5 [2]) checksumXor 1
    rfl (by decide) (by decide) rfl (by decide) (by decide) (by decide)
    rfl rfl rfl rfl rfl rfl rfl

/-- C1 (counterexample): the round-trip claim fails as stated.  On a
no-checksum engine with one-byte fields, sending `Message(type=256,
data=[7])` writes the wire `[0, 1, 0, 7]` (the type is truncated to its
field width), and feeding those bytes to a freshly reset engine with the
same configuration dispatches exactly one message — but with `type = 0 ≠
256` and `data = [0, 1, 0, 7] ≠ [7]` (with no checksum the parser's
buffer still holds the header bytes at dispatch). -/
theorem claim_C1_counterexample :
    (tfTinyNoCk.sendFrame (Message.new 256 [7]) none).2.2 = [[0, 1, 0, 7]]
    ∧ (tfTinyNoCk.acceptList [0, 1, 0, 7]).2
        = [{ frameID := 0, type := 0, data := [0, 1, 0, 7], isResponse := false }]
    ∧ ¬((0 : Int) = 256)
    ∧ ¬(([0, 1, 0, 7] : List Nat) = [7]) :=
  ⟨by decide, by decide, by decide, by decide⟩

/-- The stamped frame ID of a send whose pre-stamp ID is representable in
the ID field minus the peer bit: its unsigned image fits the field and it
is a signed 32-bit value (so the parser reconstructs it exactly). -/
theorem stampID_fits (tf : TinyFrame) (m : Message)
    (hid1 : 1 ≤ tf.idSize) (hid4 : tf.idSize ≤ 4)
    (hpre0 : 0 ≤ preID tf m)
    (hprew : preID tf m < ((2 ^ (tf.idSize * 8 - 1) : Nat) : Int)) :
    toUint32 (stampID tf m) < 2 ^ (8 * tf.idSize)
    ∧ toInt32 (stampID tf m) = stampID tf m := by
  set k := tf.idSize * 8 - 1 with hk
  have hk7 : 7 ≤ k := by omega
  have hk31 : k ≤ 31 := by omega
  have hkW : k + 1 = 8 * tf.idSize := by omega
  have hkpow : (2 : Nat) ^ (k + 1) = 2 ^ (8 * tf.idSize) := by rw [hkW]
  have hkpow2 : (2 : Nat) ^ k < 2 ^ (8 * tf.idSize) := by
    rw [← hkpow]
    exact Nat.pow_lt_pow_right (by norm_num) (by omega)
  have hpow31 : (2 : Nat) ^ k ≤ 2 ^ 31 := Nat.pow_le_pow_right (by norm_num) hk31
  have hvnat : toUint32 (preID tf m) < 2 ^ k := by
    unfold toUint32
    have h1 : preID tf m % 2 ^ 32 = preID tf m := by
      apply Int.emod_eq_of_lt hpre0
      calc preID tf m < ((2 ^ k : Nat) : Int) := hprew
        _ ≤ ((2 ^ 31 : Nat) : Int) := by exact_mod_cast hpow31
        _ < 2 ^ 32 := by norm_num
    rw [h1]
    omega
  unfold stampID
  by_cases hpeer : tf.peer = 1
  · rw [if_pos hpeer]
    have hshl : jsShl 1 k = toInt32 (((2 ^ k : Nat) : Int)) := by
      unfold jsShl
      congr 1
      have : k % 32 = k := Nat.mod_eq_of_lt (by omega)
      rw [this]
      push_cast
      ring
    have hu2 : toUint32 (jsShl 1 k) = 2 ^ k := by
      rw [hshl, toUint32_toInt32, toUint32_natCast_of_lt (by omega)]
    unfold jsOr
    rw [hu2]
    have hor : toUint32 (preID tf m) ||| 2 ^ k < 2 ^ (k + 1) :=
      Nat.or_lt_two_pow (by omega) (Nat.pow_lt_pow_right (by norm_num) (by omega))
    have hor32 : toUint32 (preID tf m) ||| 2 ^ k < 2 ^ 32 := by
      have : (2 : Nat) ^ (k + 1) ≤ 2 ^ 32 :=
        Nat.pow_le_pow_right (by norm_num) (by omega)
      omega
    constructor
    · rw [toUint32_toInt32, toUint32_natCast_of_lt hor32]
      omega
    · exact toInt32_idem _
  · rw [if_neg hpeer]
    constructor
    · omega
    · apply toInt32_of_nonneg_lt hpre0
      calc preID tf m < ((2 ^ k : Nat) : Int) := hprew
        _ ≤ ((2 ^ 31 : Nat) : Int) := by exact_mod_cast hpow31
        _ = 2 ^ 31 := by norm_num

/-- A checksum value below its field width re-serializes into exactly its
big-endian bytes. -/
theorem writeUIntBE_sum (S : Nat) (size : Nat) (hsz : size ≤ 4)
    (hS : S < 2 ^ (8 * size)) :
    writeUIntBE (S : Int) size = beBytes S size := by
  unfold writeUIntBE
  rw [toUint32_natCast_of_lt]
  have : (2 : Nat) ^ (8 * size) ≤ 2 ^ 32 := Nat.pow_le_pow_right (by norm_num) (by omega)
  omega

/-- C1 (amended): the round-trip holds under the conditions the code
actually requires: an active checksum strategy honouring the spec's
contract (`sum` representable in `size ∈ [1,4]` bytes), field widths in
1..4, a nonempty payload, in-range LEN/TYPE values, a pre-stamp frame ID
representable in the ID field minus the peer bit, an in-range SOF byte
when configured, and a positive chunk size.  Then for every re-chunking
of the written bytes, a freshly reset engine with the same configuration
dispatches exactly one message, with the sent `type`, byte-for-byte the
sent `data`, and `frameID` equal to the value stamped into the message
during the send. -/
theorem claim_C1 (tf rx : TinyFrame) (m : Message) (c : TinyFrameChecksum)
    (pieces : List (List Nat))
    (hid1 : 1 ≤ tf.idSize) (hid4 : tf.idSize ≤ 4)
    (hlen1 : 1 ≤ tf.lenSize) (hlen4 : tf.lenSize ≤ 4)
    (hty1 : 1 ≤ tf.typeSize) (hty4 : tf.typeSize ≤ 4)
    (hck : tf.checksum = some c)
    (hcs1 : 1 ≤ c.size) (hcs4 : c.size ≤ 4)
    (hsum : ∀ bs, c.sum bs < 2 ^ (8 * c.size))
    (hsofR : tf.sofByte = none ∨ ∃ s, tf.sofByte = some s ∧ 0 ≤ s ∧ s < 256)
    (hchunk : 0 < tf.chunkSize)
    (hdata : ∀ b ∈ m.data, b < 256)
    (hdlen0 : 0 < m.data.length)
    (hdlen : m.data.length < 2 ^ (8 * tf.lenSize))
    (hdlen31 : m.data.length < 2 ^ 31)
    (hty0 : 0 ≤ m.type)
    (htyw : m.type < ((2 ^ (8 * tf.typeSize) : Nat) : Int))
    (hty31 : m.type < 2 ^ 31)
    (hpre0 : 0 ≤ preID tf m)
    (hprew : preID tf m < ((2 ^ (tf.idSize * 8 - 1) : Nat) : Int))
    (hrpt : rx.parserTimeout = none) (hrst : rx.state = .sof)
    (hrsof : rx.sofByte = tf.sofByte)
    (hrid : rx.idSize = tf.idSize) (hrlen : rx.lenSize = tf.lenSize)
    (hrty : rx.typeSize = tf.typeSize) (hrck : rx.checksum = some c)
    (hpieces : pieces.flatten = ((tf.sendFrame m none).2.2).flatten) :
    ((rx.acceptChunks pieces).2).map (fun r => (r.type, r.data, r.frameID))
      = [(m.type, m.data, ((tf.sendFrame m none).2.1).frameID)] := by
  have hub : (2 : Nat) ^ (8 * c.size) ≤ 2 ^ 32 :=
    Nat.pow_le_pow_right (by norm_num) (by omega)
  have hne : m.data.length ≠ 0 := by omega
  -- field-value round-trip facts
  have hfits := stampID_fits tf m hid1 hid4 hpre0 hprew
  have hrecvID : recvAcc 0 (writeUIntBE (stampID tf m) tf.idSize) = stampID tf m :=
    recvAcc_writeUIntBE _ _ hfits.1 hfits.2
  have hrecvLen : recvAcc 0 (writeUIntBE (m.data.length : Int) tf.lenSize)
      = (m.data.length : Int) := by
    apply recvAcc_writeUIntBE
    · rw [toUint32_natCast_of_lt (by omega)]
      exact hdlen
    · exact toInt32_natCast_of_lt (by omega)
  have hrecvTy : recvAcc 0 (writeUIntBE m.type tf.typeSize) = m.type := by
    apply recvAcc_writeUIntBE
    · unfold toUint32
      have h1 : m.type % 2 ^ 32 = m.type := Int.emod_eq_of_lt hty0 (by omega)
      rw [h1]
      omega
    · exact toInt32_of_nonneg_lt hty0 hty31
  have hckAccH : ckAcc 0 (writeUIntBE ((c.sum (headerCore tf m)) : Int) c.size)
      = c.sum (headerCore tf m) := by
    rw [writeUIntBE_sum _ _ hcs4 (hsum _)]
    exact ckAcc_beBytes c.size hcs4 (hsum _)
  have hckAccP : ckAcc 0 (writeUIntBE ((c.sum m.data) : Int) c.size)
      = c.sum m.data := by
    rw [writeUIntBE_sum _ _ hcs4 (hsum _)]
    exact ckAcc_beBytes c.size hcs4 (hsum _)
  -- the wire
  rw [TinyFrame.acceptChunks_eq_flatten, hpieces, sendFrame_spec]
  dsimp only
  rw [chunkify_flatten tf.chunkSize hchunk]
  have hwire : headerBytes tf m ++ bodyBytes tf m
      = headerCore tf m
        ++ (writeUIntBE ((c.sum (headerCore tf m)) : Int) c.size
          ++ (m.data ++ writeUIntBE ((c.sum m.data) : Int) c.size)) := by
    unfold headerBytes bodyBytes
    rw [hck]
    simp [hne, List.append_assoc]
  rw [hwire]
  rw [TinyFrame.acceptList_append]
  rw [run_header tf rx m hrpt hrst hrsof hsofR hrid hrlen hrty
      (by rw [hrck]; rfl) hid1 hlen1 hty1]
  dsimp only
  rw [TinyFrame.acceptList_append]
  rw [TinyFrame.run_headck (writeUIntBE ((c.sum (headerCore tf m)) : Int) c.size)
      { rx with state := .headcksum, partLen := 0,
                currentID := recvAcc 0 (writeUIntBE (stampID tf m) tf.idSize),
                len := recvAcc 0 (writeUIntBE (m.data.length : Int) tf.lenSize),
                currentType := recvAcc 0 (writeUIntBE m.type tf.typeSize),
                cksum := 0, data := headerCore tf m }
      c hrpt rfl hrck (writeUIntBE_ne_nil _ hcs1)
      (by show 0 + (writeUIntBE ((c.sum (headerCore tf m)) : Int) c.size).length = c.size
          rw [writeUIntBE_length]
          omega)
      (by show c.sum (headerCore tf m)
            = ckAcc 0 (writeUIntBE ((c.sum (headerCore tf m)) : Int) c.size)
          rw [hckAccH])
      (by show recvAcc 0 (writeUIntBE (m.data.length : Int) tf.lenSize) ≠ 0
          rw [hrecvLen]
          exact_mod_cast hne)]
  dsimp only
  rw [TinyFrame.acceptList_append]
  rw [TinyFrame.run_data m.data
      { rx with state := .data, partLen := 0,
                currentID := recvAcc 0 (writeUIntBE (stampID tf m) tf.idSize),
                len := recvAcc 0 (writeUIntBE (m.data.length : Int) tf.lenSize),
                currentType := recvAcc 0 (writeUIntBE m.type tf.typeSize),
                cksum := ckAcc 0 (writeUIntBE ((c.sum (headerCore tf m)) : Int) c.size),
                data := [] }
      c hrpt rfl hrck (by
        intro hnil
        rw [hnil] at hdlen0
        simp at hdlen0)
      (by show recvAcc 0 (writeUIntBE (m.data.length : Int) tf.lenSize)
            = ((0 + m.data.length : Nat) : Int)
          rw [hrecvLen]
          simp)]
  dsimp only
  rw [TinyFrame.run_datack (writeUIntBE ((c.sum m.data) : Int) c.size)
      { rx with state := .datacksum, partLen := 0,
                currentID := recvAcc 0 (writeUIntBE (stampID tf m) tf.idSize),
                len := recvAcc 0 (writeUIntBE (m.data.length : Int) tf.lenSize),
                currentType := recvAcc 0 (writeUIntBE m.type tf.typeSize),
                cksum := 0, data := [] ++ m.data }
      c hrpt rfl hrck (writeUIntBE_ne_nil _ hcs1)
      (by show 0 + (writeUIntBE ((c.sum m.data) : Int) c.size).length = c.size
          rw [writeUIntBE_length]
          omega)
      (by show c.sum ([] ++ m.data)
            = ckAcc 0 (writeUIntBE ((c.sum m.data) : Int) c.size)
          rw [List.nil_append, hckAccP])]
  simp [hrecvID, hrecvTy]

/-- The spec-modelled XOR strategy honours the checksum contract: its sum
is representable in its one-byte width. -/
theorem checksumXor_sum_lt (bs : List Nat) :
    checksumXor.sum bs < 2 ^ (8 * checksumXor.size) := by
  have h : ∀ (l : List Nat) (a : Nat), a < 256 →
      l.foldl (fun a b => a ^^^ (b % 256)) a < 256 := by
    intro l
    induction l with
    | nil => intro a ha; simpa using ha
    | cons b l ih =>
        intro a ha
        apply ih
        have h1 : b % 256 < 256 := Nat.mod_lt _ (by norm_num)
        have h2 : a < 2 ^ 8 := by omega
        have h3 : b % 256 < 2 ^ 8 := by omega
        have hx := Nat.xor_lt_two_pow h2 h3
        show a ^^^ b % 256 < 256
        omega
  have hb : checksumXor.sum bs = bs.foldl (fun a b => a ^^^ (b % 256)) 0 := rfl
  rw [hb]
  have := h bs 0 (by norm_num)
  norm_num [checksumXor]
  omega

/-- C1 (witness). -/
theorem claim_C1_witness :
    ((tfWit.acceptChunks ((tfWit.sendFrame (Message.new 7 [9, 8]) none).2.2)).2).map
        (fun r => (r.type, r.data, r.frameID))
      = [(7, [9, 8], (((tfWit.sendFrame (Message.new 7 [9, 8]) none).2.1)).frameID)] :=
  claim_C1 tfWit tfWit (Message.new 7 [9, 8]) checksumXor
    ((tfWit.sendFrame (Message.new 7 [9, 8]) none).2.2)
    (by decide) (by decide) (by decide) (by decide) (by decide) (by decide)
    rfl (by decide) (by decide)
    (fun bs => checksumXor_sum_lt bs)
    (Or.inr ⟨1, rfl, by decide, by decide⟩)
    (by decide)
    (by decide) (by decide) (by decide) (by decide)
    (by decide) (by decide) (by decide)
    (by decide) (by decide)
    rfl rfl rfl rfl rfl rfl rfl
    rfl

/-- C2 (code bug): a zero-length-payload frame sent with an active
checksum carries `LEN = 0` and no trailing payload checksum on the wire
(here the whole wire is the 4-byte header `[ID, LEN, TYPE, CKSUM]`), but
the receiver dispatches a Message whose `data` is the parser's buffered
header-plus-checksum bytes `[0, 0, 5, 5]` instead of the empty
payload. -/
theorem claim_C2_bug :
    (tfTiny.sendFrame (Message.new 5 []) none).2.2 = [[0, 0, 5, 5]]
    ∧ (tfTiny.acceptList [0, 0, 5, 5]).2
        = [{ frameID := 0, type := 5, data := [0, 0, 5, 5], isResponse := false }]
    ∧ ({ frameID := 0, type := 5, data := [0, 0, 5, 5],
         isResponse := false } : Message).data ≠ [] := by
  refine ⟨by decide, by decide, by decide⟩

end TinyFrameJS
